import Mathlib

/-!
Verification of `script.js` (property-listing front end).

Shallow embedding of the cart, persistence, filter and overlay logic of
`src/script.js`.  JavaScript strings are Lean strings handled as lists of
characters.  The numbers of the script all come from `parseInt`: they are
`NaN`, an infinity, or an integer that a double holds, so a number is kept as
that integer and `parseInt` rounds to the nearest double, ties to even.
-/

namespace Estate

/-! ## JavaScript primitives used by the script -/

/-- A JavaScript number as `parseInt` produces it: `NaN`, an infinity, or an
integer that a double holds. -/
inductive JsNum where
  | nan
  | negInf
  | finite (v : Int)
  | posInf
deriving DecidableEq, Repr

/-- The absolute value of a double that holds an integer, or infinity. -/
inductive Magnitude where
  | finite (v : Nat)
  | infinite
deriving DecidableEq, Repr

/-- The number of low bits a number of 54 bits or more loses when it is cut to
53 significant bits; `fuel` bounds the search, 971 bits is the most a finite
double drops. -/
def dropBits : Nat → Nat → Nat → Nat
  | 0, _, e => e
  | fuel + 1, n, e => if n >>> e < 9007199254740992 then e else dropBits fuel n (e + 1)

/-- The double nearest to a natural number, ties to even: exact below 2^53
(9007199254740992), infinite from 2^1024 - 2^970 on. -/
def roundToDouble (n : Nat) : Magnitude :=
  if n < 9007199254740992 then .finite n
  else if n >>> 1024 != 0 then .infinite
  else
    let e := dropBits 971 n 1
    let q := n >>> e
    let r := n - (q <<< e)
    let half := 1 <<< (e - 1)
    let q1 := if half < r || (r == half && q % 2 == 1) then q + 1 else q
    if (q1 <<< e) >>> 1024 != 0 then .infinite else .finite (q1 <<< e)

/-- The number `parseInt` returns for a sign and the integer its digits denote. -/
def toJsNum (negative : Bool) (n : Nat) : JsNum :=
  match roundToDouble n with
  | .finite v => .finite (if negative then - (v : Int) else (v : Int))
  | .infinite => if negative then .negInf else .posInf

/-- The characters `\d` matches in a regular expression without the `u` flag. -/
def isDigit (c : Char) : Bool := 48 ≤ c.toNat && c.toNat ≤ 57

/-- White space and line terminators that `parseInt` skips at the start of its input. -/
def isJsWhiteSpace (c : Char) : Bool :=
  let n := c.toNat
  n == 9 || n == 10 || n == 11 || n == 12 || n == 13 || n == 32 || n == 0xA0 ||
  n == 0x1680 || (0x2000 ≤ n && n ≤ 0x200A) || n == 0x2028 || n == 0x2029 ||
  n == 0x202F || n == 0x205F || n == 0x3000 || n == 0xFEFF

/-- Value of a character as a digit of the given radix, if it is one. -/
def digitVal (radix : Nat) (c : Char) : Option Nat :=
  let n := c.toNat
  let v : Option Nat :=
    if 48 ≤ n && n ≤ 57 then some (n - 48)
    else if 97 ≤ n && n ≤ 122 then some (n - 97 + 10)
    else if 65 ≤ n && n ≤ 90 then some (n - 65 + 10)
    else none
  match v with
  | some d => if d < radix then some d else none
  | none => none

/-- Reads the longest run of radix digits: the value accumulated so far and the
number of digits read. -/
def readDigits (radix : Nat) : List Char → Nat → Nat → Nat × Nat
  | [], acc, cnt => (acc, cnt)
  | c :: cs, acc, cnt =>
    match digitVal radix c with
    | some d => readDigits radix cs (acc * radix + d) (cnt + 1)
    | none => (acc, cnt)

/-- The digits of `parseInt` in the given radix: no digit at all gives `NaN`. -/
def parseIntDigits (radix : Nat) (s : List Char) : Option Nat :=
  if (readDigits radix s 0 0).2 = 0 then none else some (readDigits radix s 0 0).1

/-- The unsigned part of `parseInt`: a `0x`/`0X` prefix selects radix 16,
otherwise the radix is 10. -/
def parseIntUnsigned : List Char → Option Nat
  | c :: d :: rest =>
    if c.toNat == 48 && (d.toNat == 120 || d.toNat == 88) then parseIntDigits 16 rest
    else parseIntDigits 10 (c :: d :: rest)
  | s => parseIntDigits 10 s

/-- The number for a sign and the unsigned part of `parseInt`. -/
def signedNum (negative : Bool) (digits : Option Nat) : JsNum :=
  match digits with
  | some n => toJsNum negative n
  | none => .nan

/-- `parseInt(string)` with no radix argument.  Every digit counts: the
engine does not use the licence to drop digits after the twentieth. -/
def parseInt (str : String) : JsNum :=
  match str.toList.dropWhile isJsWhiteSpace with
  | [] => .nan
  | c :: rest =>
    if c.toNat == 45 then signedNum true (parseIntUnsigned rest)
    else if c.toNat == 43 then signedNum false (parseIntUnsigned rest)
    else signedNum false (parseIntUnsigned (c :: rest))

/-- The comparison `a < b` on numbers: false as soon as one side is `NaN`. -/
def jsLt (a b : JsNum) : Bool :=
  match a, b with
  | .nan, _ => false
  | _, .nan => false
  | .negInf, .negInf => false
  | .negInf, _ => true
  | .finite _, .negInf => false
  | .finite x, .finite y => decide (x < y)
  | .finite _, .posInf => true
  | .posInf, _ => false

/-- The comparison `a > b` on numbers: false as soon as one side is `NaN`. -/
def jsGt (a b : JsNum) : Bool := jsLt b a

/-- Truthiness of an optional string (`undefined` and `""` are falsy). -/
def truthy (s : Option String) : Bool :=
  match s with
  | some t => !t.toList.isEmpty
  | none => false

/-- The expression `s || d` for an optional string `s` and a string `d`. -/
def orElseStr (s : Option String) (d : String) : String :=
  match s with
  | some t => if t.toList.isEmpty then d else t
  | none => d

/-- The lower-casing of the ASCII letters alone.  `String.prototype.toLowerCase`
is the engine's and maps every cased letter, so the filter functions take it
as a parameter; this one agrees with it on ASCII text and evaluates the
sample data. -/
def asciiLowerCase (s : String) : String := String.mk (s.toList.map Char.toLower)

/-- Whether `sub` occurs in `cs` starting at some position. -/
def includesChars (sub : List Char) : List Char → Bool
  | [] => sub.isEmpty
  | c :: cs => sub.isPrefixOf (c :: cs) || includesChars sub cs

/-- `String.prototype.includes`. -/
def includes (s sub : String) : Bool := includesChars sub.toList s.toList

/-! ## The DOM of a listing card -/

/-- One `li` under `.extra-details`: its `data-label` attribute (`none` when the
attribute is missing, `getAttribute` then returns `null`) and its text. -/
structure DetailItem where
  dataLabel : Option String
  textContent : String
deriving DecidableEq, Repr

/-- A `.card` element, as far as the script reads it.  `node` is the identity
of the element; each other field is `none` when the sub-element is missing. -/
structure Card where
  node : Nat
  imgSrc : Option String
  priceText : Option String
  metaText : Option String
  badgesText : Option String
  extraDetails : List DetailItem
deriving DecidableEq, Repr

/-! ## Filter engine -/

/-- The `filters` object built by `filterProperties`: `none` is a key that was
never set. -/
structure Filters where
  location : Option String := none
  type : Option String := none
  bedrooms : Option String := none
  amenities : Option String := none
  minPrice : Option String := none
  maxPrice : Option String := none
deriving DecidableEq, Repr

/-- One attempt of `/(\d+) Beds/` at the start of `cs`: the digits are taken
greedily, then given back one at a time until the literal follows. -/
def bedsAt (cs : List Char) : Option (List Char) :=
  let n := (cs.takeWhile isDigit).length
  ((List.range n).reverse.map (fun k => k + 1)).findSome? (fun k =>
    if " Beds".toList.isPrefixOf (cs.drop k) then some (cs.take k) else none)

/-- The first capture group of `meta.match(/(\d+) Beds/)`: leftmost match. -/
def bedsMatch : List Char → Option (List Char)
  | [] => none
  | c :: cs =>
    match bedsAt (c :: cs) with
    | some ds => some ds
    | none => bedsMatch cs

/-- The `details` object of `matchesFilter` read at `key`: the lower-cased text
of the last `li` carrying that label. -/
def detailsLookup (toLowerCase : String → String) (items : List DetailItem) (key : String) :
    Option String :=
  (items.reverse.find? (fun li => li.dataLabel == some key)).map
    (fun li => toLowerCase li.textContent)

/-- The price of a card as `matchesFilter` computes it. -/
def cardPrice (card : Card) : JsNum :=
  parseInt (orElseStr (card.priceText.map (fun t => String.mk (t.toList.filter isDigit))) "0")

/-- The bed count of a meta text as `matchesFilter` computes it. -/
def bedCount (metaText : String) : JsNum :=
  parseInt (orElseStr ((bedsMatch metaText.toList).map String.mk) "0")

/-- `details[key]?.includes(needle)`, read as a condition. -/
def detailIncludes (toLowerCase : String → String) (items : List DetailItem) (key : String)
    (needle : String) : Bool :=
  match detailsLookup toLowerCase items key with
  | some v => includes v needle
  | none => false

/-- The function `matchesFilter(card, filters)`, for the engine's
`String.prototype.toLowerCase`. -/
def matchesFilter (toLowerCase : String → String) (card : Card) (filters : Filters) : Bool :=
  let price := cardPrice card
  let metaText := orElseStr card.metaText ""
  if truthy filters.location &&
      !detailIncludes toLowerCase card.extraDetails "Location"
        (toLowerCase (filters.location.getD "")) then
    false
  else if truthy filters.type &&
      detailsLookup toLowerCase card.extraDetails "Type" !=
        some (toLowerCase (filters.type.getD "")) then
    false
  else if truthy filters.bedrooms &&
      jsLt (bedCount metaText) (parseInt (filters.bedrooms.getD "")) then
    false
  else if truthy filters.amenities &&
      !detailIncludes toLowerCase card.extraDetails "Amenities"
        (toLowerCase (filters.amenities.getD "")) then
    false
  else if truthy filters.minPrice && jsLt price (parseInt (filters.minPrice.getD "")) then
    false
  else if truthy filters.maxPrice && jsGt price (parseInt (filters.maxPrice.getD "")) then
    false
  else
    true

/-- Adds one form entry to the `filters` object: unset values are skipped, a
later entry of the same name overwrites an earlier one, other names are kept
out of the six keys the predicate reads. -/
def setFilter (filters : Filters) (entry : String × String) : Filters :=
  if entry.2.toList.isEmpty then filters
  else if entry.1 = "location" then { filters with location := some entry.2 }
  else if entry.1 = "type" then { filters with type := some entry.2 }
  else if entry.1 = "bedrooms" then { filters with bedrooms := some entry.2 }
  else if entry.1 = "amenities" then { filters with amenities := some entry.2 }
  else if entry.1 = "minPrice" then { filters with minPrice := some entry.2 }
  else if entry.1 = "maxPrice" then { filters with maxPrice := some entry.2 }
  else filters

/-- The function `filterProperties`: the `display` value given to each card
(`true` for `""`, `false` for `"none"`) from the entries of the filter form. -/
def filterProperties (toLowerCase : String → String) (formData : List (String × String))
    (allCards : List Card) : List Bool :=
  let filters := formData.foldl setFilter {}
  allCards.map (fun card => matchesFilter toLowerCase card filters)

/-! ## JSON, as the platform provides it -/

/-- A value produced by `JSON.parse`.  A number is kept exact as
`mantissa * 10 ^ exp`; every number the script stores is an integer (`exp = 0`).
The members of an object are kept in the order of the text. -/
inductive Json where
  | null
  | bool (b : Bool)
  | num (mantissa : Int) (exp : Int)
  | str (s : String)
  | arr (items : List Json)
  | obj (members : List (String × Json))
deriving Repr

/-- The escape `JSON.stringify` writes for one character of a string. -/
def quoteChar (c : Char) : List Char :=
  let n := c.toNat
  if n == 8 then ['\\', 'b']
  else if n == 9 then ['\\', 't']
  else if n == 10 then ['\\', 'n']
  else if n == 12 then ['\\', 'f']
  else if n == 13 then ['\\', 'r']
  else if n == 34 then ['\\', '"']
  else if n == 92 then ['\\', '\\']
  else if n < 32 then ['\\', 'u', '0', '0', Nat.digitChar (n / 16), Nat.digitChar (n % 16)]
  else [c]

/-- The characters between the quotes of a serialized string. -/
def quoteBody : List Char → List Char
  | [] => []
  | c :: cs => quoteChar c ++ quoteBody cs

/-- A string as `JSON.stringify` writes it. -/
def quote (s : String) : List Char := '"' :: (quoteBody s.toList ++ ['"'])

/-- An integer in decimal, as `Number.prototype.toString` writes it. -/
def intText (n : Int) : List Char :=
  match n with
  | Int.ofNat k => Nat.toDigits 10 k
  | Int.negSucc k => '-' :: Nat.toDigits 10 (k + 1)

mutual
/-- The text `JSON.stringify(value)` without indentation. -/
def stringifyChars : Json → List Char
  | .null => ['n', 'u', 'l', 'l']
  | .bool true => ['t', 'r', 'u', 'e']
  | .bool false => ['f', 'a', 'l', 's', 'e']
  | .num m e => if e = 0 then intText m else intText m ++ 'e' :: intText e
  | .str s => quote s
  | .arr items => '[' :: (stringifyItems items ++ [']'])
  | .obj members => '{' :: (stringifyMembers members ++ ['}'])
/-- The elements of an array, separated by commas. -/
def stringifyItems : List Json → List Char
  | [] => []
  | x :: rest => stringifyChars x ++ stringifyMoreItems rest
/-- The elements after the first, each preceded by a comma. -/
def stringifyMoreItems : List Json → List Char
  | [] => []
  | x :: rest => ',' :: (stringifyChars x ++ stringifyMoreItems rest)
/-- The members of an object, separated by commas. -/
def stringifyMembers : List (String × Json) → List Char
  | [] => []
  | (k, v) :: rest => quote k ++ ':' :: (stringifyChars v ++ stringifyMoreMembers rest)
/-- The members after the first, each preceded by a comma. -/
def stringifyMoreMembers : List (String × Json) → List Char
  | [] => []
  | (k, v) :: rest => ',' :: (quote k ++ ':' :: (stringifyChars v ++ stringifyMoreMembers rest))
end

/-- The function `JSON.stringify`. -/
def JSON.stringify (value : Json) : String := String.mk (stringifyChars value)

/-- The exceptions the script catches. -/
inductive JsError where
  | syntaxError
  | securityError
  | quotaExceededError
  | typeError
deriving DecidableEq, Repr

/-- JSON white space. -/
def isJsonWs (c : Char) : Bool :=
  c.toNat == 32 || c.toNat == 9 || c.toNat == 10 || c.toNat == 13

/-- Drops leading JSON white space. -/
def skipWs : List Char → List Char
  | [] => []
  | c :: cs => if isJsonWs c then skipWs cs else c :: cs

/-- Where the reader of a string literal stands: in plain text, right after a
backslash, or inside a `\u` escape with `count` hexadecimal digits read.  The
`pending` states are the same three after a `\u` escape of a high surrogate
`high` that still waits for its low half. -/
inductive StrState where
  | normal
  | escape
  | hex (count : Nat) (value : Nat)
  | pending (high : Nat)
  | pendingEscape (high : Nat)
  | pendingHex (high : Nat) (count : Nat) (value : Nat)

/-- The character a surrogate half stands for when it has no partner.  A
JavaScript string keeps the half itself; a Lean string cannot, and holds the
replacement character U+FFFD in its place. -/
def loneSurrogate : Char := Char.ofNat 0xFFFD

/-- The code point of a surrogate pair. -/
def surrogatePair (high low : Nat) : Char :=
  Char.ofNat (0x10000 + (high - 0xD800) * 0x400 + (low - 0xDC00))

/-- The character of a simple escape `\c`, if `c` is one. -/
def simpleEscape (c : Char) : Option Char :=
  if c.toNat == 34 then some c
  else if c.toNat == 92 then some c
  else if c.toNat == 47 then some c
  else if c.toNat == 98 then some (Char.ofNat 8)
  else if c.toNat == 102 then some (Char.ofNat 12)
  else if c.toNat == 110 then some (Char.ofNat 10)
  else if c.toNat == 114 then some (Char.ofNat 13)
  else if c.toNat == 116 then some (Char.ofNat 9)
  else none

/-- Reads a string literal after its opening quote: the characters read so far
are in `acc`, most recent first. -/
def parseStringBody : StrState → List Char → List Char → Option (List Char × List Char)
  | _, [], _ => none
  | .normal, c :: rest, acc =>
    if c.toNat == 34 then some (acc.reverse, rest)
    else if c.toNat == 92 then parseStringBody .escape rest acc
    else if c.toNat < 32 then none
    else parseStringBody .normal rest (c :: acc)
  | .escape, c :: rest, acc =>
    if c.toNat == 117 then parseStringBody (.hex 0 0) rest acc
    else
      match simpleEscape c with
      | some x => parseStringBody .normal rest (x :: acc)
      | none => none
  | .hex count value, c :: rest, acc =>
    match digitVal 16 c with
    | none => none
    | some d =>
      if count = 3 then
        if 0xD800 ≤ value * 16 + d && value * 16 + d ≤ 0xDBFF then
          parseStringBody (.pending (value * 16 + d)) rest acc
        else if 0xDC00 ≤ value * 16 + d && value * 16 + d ≤ 0xDFFF then
          parseStringBody .normal rest (loneSurrogate :: acc)
        else parseStringBody .normal rest (Char.ofNat (value * 16 + d) :: acc)
      else parseStringBody (.hex (count + 1) (value * 16 + d)) rest acc
  | .pending high, c :: rest, acc =>
    if c.toNat == 34 then some ((loneSurrogate :: acc).reverse, rest)
    else if c.toNat == 92 then parseStringBody (.pendingEscape high) rest acc
    else if c.toNat < 32 then none
    else parseStringBody .normal rest (c :: loneSurrogate :: acc)
  | .pendingEscape high, c :: rest, acc =>
    if c.toNat == 117 then parseStringBody (.pendingHex high 0 0) rest acc
    else
      match simpleEscape c with
      | some x => parseStringBody .normal rest (x :: loneSurrogate :: acc)
      | none => none
  | .pendingHex high count value, c :: rest, acc =>
    match digitVal 16 c with
    | none => none
    | some d =>
      if count = 3 then
        if 0xDC00 ≤ value * 16 + d && value * 16 + d ≤ 0xDFFF then
          parseStringBody .normal rest (surrogatePair high (value * 16 + d) :: acc)
        else if 0xD800 ≤ value * 16 + d && value * 16 + d ≤ 0xDBFF then
          parseStringBody (.pending (value * 16 + d)) rest (loneSurrogate :: acc)
        else
          parseStringBody .normal rest (Char.ofNat (value * 16 + d) :: loneSurrogate :: acc)
      else parseStringBody (.pendingHex high (count + 1) (value * 16 + d)) rest acc

/-- The longest run of decimal digits at the start of the input, and what follows. -/
def digitRun : List Char → List Char × List Char
  | [] => ([], [])
  | c :: cs => if isDigit c then ((c :: (digitRun cs).1), (digitRun cs).2) else ([], c :: cs)

/-- The number a run of decimal digits denotes. -/
def digitsValue (ds : List Char) : Nat :=
  ds.foldl (fun acc c => acc * 10 + (c.toNat - 48)) 0

/-- The integer part of a JSON number: a single `0`, or a run of digits that
does not start with `0`. -/
def parseIntPart : List Char → Option (List Char × List Char)
  | [] => none
  | c :: cs =>
    if c.toNat == 48 then some ([c], cs)
    else if isDigit c then some (digitRun (c :: cs))
    else none

/-- The optional fraction of a JSON number: its digits and what follows. -/
def parseFraction : List Char → Option (List Char × List Char)
  | [] => some ([], [])
  | c :: cs =>
    if c.toNat == 46 then
      (if (digitRun cs).1.isEmpty then none else some (digitRun cs))
    else some ([], c :: cs)

/-- The digits of an exponent, after the optional sign. -/
def parseExponentDigits (negative : Bool) (cs : List Char) : Option (Int × List Char) :=
  if (digitRun cs).1.isEmpty then none
  else if negative then some (- (digitsValue (digitRun cs).1 : Int), (digitRun cs).2)
  else some ((digitsValue (digitRun cs).1 : Int), (digitRun cs).2)

/-- The optional exponent of a JSON number: its value and what follows. -/
def parseExponent : List Char → Option (Int × List Char)
  | [] => some (0, [])
  | c :: cs =>
    if c.toNat == 101 || c.toNat == 69 then
      match cs with
      | [] => none
      | s :: rest =>
        if s.toNat == 45 then parseExponentDigits true rest
        else if s.toNat == 43 then parseExponentDigits false rest
        else parseExponentDigits false (s :: rest)
    else some (0, c :: cs)

/-- A JSON number without its sign. -/
def parseUnsignedNumber (negative : Bool) (cs : List Char) : Option (Json × List Char) :=
  match parseIntPart cs with
  | none => none
  | some (intDs, cs1) =>
    match parseFraction cs1 with
    | none => none
    | some (fracDs, cs2) =>
      match parseExponent cs2 with
      | none => none
      | some (e, cs3) =>
        let m : Int := digitsValue (intDs ++ fracDs)
        some (.num (if negative then - m else m) (e - fracDs.length), cs3)

/-- A JSON number. -/
def parseNumber : List Char → Option (Json × List Char)
  | [] => none
  | c :: cs => if c.toNat == 45 then parseUnsignedNumber true cs else parseUnsignedNumber false (c :: cs)

/-- Reads the exact word `word` from the input. -/
def expectWord (word : List Char) (value : Json) (cs : List Char) : Option (Json × List Char) :=
  if word.isPrefixOf cs then some (value, cs.drop word.length) else none

/-- The rest of an array after one of its elements: a closing bracket, or a
comma and one more element.  `pv` reads one value. -/
def parseArrayRest (pv : List Char → Option (Json × List Char)) :
    Nat → List Char → List Json → Option (Json × List Char)
  | 0, _, _ => none
  | n + 1, cs, acc =>
    match skipWs cs with
    | [] => none
    | c :: rest =>
      if c.toNat == 93 then some (.arr acc.reverse, rest)
      else if c.toNat == 44 then
        match pv rest with
        | none => none
        | some (v, rest1) => parseArrayRest pv n rest1 (v :: acc)
      else none

/-- One member of an object: a string, a colon, a value. -/
def parseMember (pv : List Char → Option (Json × List Char)) (cs : List Char) :
    Option ((String × Json) × List Char) :=
  match skipWs cs with
  | [] => none
  | c :: rest =>
    if c.toNat == 34 then
      match parseStringBody .normal rest [] with
      | none => none
      | some (key, rest1) =>
        match skipWs rest1 with
        | [] => none
        | d :: rest2 =>
          if d.toNat == 58 then
            match pv rest2 with
            | none => none
            | some (v, rest3) => some ((String.mk key, v), rest3)
          else none
    else none

/-- The rest of an object after one of its members: a closing brace, or a
comma and one more member. -/
def parseObjectRest (pv : List Char → Option (Json × List Char)) :
    Nat → List Char → List (String × Json) → Option (Json × List Char)
  | 0, _, _ => none
  | n + 1, cs, acc =>
    match skipWs cs with
    | [] => none
    | c :: rest =>
      if c.toNat == 125 then some (.obj acc.reverse, rest)
      else if c.toNat == 44 then
        match parseMember pv rest with
        | none => none
        | some (m, rest1) => parseObjectRest pv n rest1 (m :: acc)
      else none

/-- Reads one JSON value, leading white space included.  `fuel` bounds the
nesting depth; `JSON.parse` passes more than the length of the text. -/
def parseValue : Nat → List Char → Option (Json × List Char)
  | 0, _ => none
  | fuel + 1, cs =>
    match skipWs cs with
    | [] => none
    | c :: rest =>
      if c.toNat == 91 then
        match skipWs rest with
        | [] => none
        | d :: rest1 =>
          if d.toNat == 93 then some (.arr [], rest1)
          else
            match parseValue fuel (d :: rest1) with
            | none => none
            | some (v, rest2) => parseArrayRest (parseValue fuel) (rest2.length + 1) rest2 [v]
      else if c.toNat == 123 then
        match skipWs rest with
        | [] => none
        | d :: rest1 =>
          if d.toNat == 125 then some (.obj [], rest1)
          else
            match parseMember (parseValue fuel) (d :: rest1) with
            | none => none
            | some (m, rest2) => parseObjectRest (parseValue fuel) (rest2.length + 1) rest2 [m]
      else if c.toNat == 34 then
        match parseStringBody .normal rest [] with
        | none => none
        | some (s, rest1) => some (.str (String.mk s), rest1)
      else if c.toNat == 116 then expectWord ['t', 'r', 'u', 'e'] (.bool true) (c :: rest)
      else if c.toNat == 102 then expectWord ['f', 'a', 'l', 's', 'e'] (.bool false) (c :: rest)
      else if c.toNat == 110 then expectWord ['n', 'u', 'l', 'l'] .null (c :: rest)
      else parseNumber (c :: rest)

/-- The function `JSON.parse`: the value of the text, or a `SyntaxError`. -/
def JSON.parse (text : String) : Except JsError Json :=
  match parseValue (text.toList.length + 1) text.toList with
  | none => .error .syntaxError
  | some (v, rest) =>
    match skipWs rest with
    | [] => .ok v
    | _ :: _ => .error .syntaxError

/-! ## Persistent store -/

/-- The browser's `localStorage`: the stored entries, whether the page may use
the store at all (every access throws a `SecurityError` otherwise), and how
many characters it accepts (`setItem` throws a `QuotaExceededError` beyond). -/
structure LocalStorage where
  items : List (String × String)
  accessible : Bool
  quota : Nat
deriving DecidableEq, Repr

/-- Number of characters the entries take. -/
def storedSize (items : List (String × String)) : Nat :=
  (items.map (fun kv => kv.1.length + kv.2.length)).sum

/-- `localStorage.getItem(key)`: the stored text, `none` for `null`. -/
def LocalStorage.getItem (ls : LocalStorage) (key : String) : Except JsError (Option String) :=
  if ls.accessible then .ok (ls.items.lookup key) else .error .securityError

/-- `localStorage.setItem(key, value)`: the store after the write. -/
def LocalStorage.setItem (ls : LocalStorage) (key value : String) : Except JsError LocalStorage :=
  if ls.accessible then
    if storedSize ((key, value) :: ls.items.filter (fun kv => kv.1 != key)) ≤ ls.quota then
      .ok { ls with items := (key, value) :: ls.items.filter (fun kv => kv.1 != key) }
    else .error .quotaExceededError
  else .error .securityError

/-- One entry of `details` in a selected-property record. -/
structure Detail where
  label : Option String
  value : String
deriving DecidableEq, Repr

/-- A record of the selection list, as `getPropertyData` builds it. -/
structure SelectedProperty where
  img : String
  price : String
  meta : String
  badges : String
  details : List Detail
  cardIdx : Int
deriving DecidableEq, Repr

/-- The JavaScript object of a `details` entry. -/
def Detail.toJson (d : Detail) : Json :=
  .obj [("label", match d.label with
                  | some l => .str l
                  | none => .null),
        ("value", .str d.value)]

/-- The JavaScript object of a selected-property record. -/
def SelectedProperty.toJson (p : SelectedProperty) : Json :=
  .obj [("img", .str p.img), ("price", .str p.price), ("meta", .str p.meta),
        ("badges", .str p.badges), ("details", .arr (p.details.map Detail.toJson)),
        ("cardIdx", .num p.cardIdx 0)]

/-- The fixed key of the selection list in the store. -/
def STORAGE_KEY : String := "selectedProperties"

/-- The function `saveSelectedProperties`: the store afterwards.  The list is
always an array, so `selectedProperties || []` is the list itself; an
exception of `setItem` is caught and leaves the store as it was. -/
def saveSelectedProperties (selectedProperties : List SelectedProperty) (ls : LocalStorage) :
    LocalStorage :=
  match ls.setItem STORAGE_KEY (JSON.stringify (.arr (selectedProperties.map SelectedProperty.toJson))) with
  | .ok ls1 => ls1
  | .error _ => ls

/-- The `try` block of `loadSelectedProperties`: `some list` when it returns,
`none` when it falls through to the end of the function. -/
def loadTryBlock (ls : LocalStorage) : Except JsError (Option (List Json)) :=
  match ls.getItem STORAGE_KEY with
  | .error e => .error e
  | .ok raw =>
    if !truthy raw then .ok (some [])
    else
      match JSON.parse (raw.getD "") with
      | .error e => .error e
      | .ok (.arr items) => .ok (some items)
      | .ok _ => .ok none

/-- The function `loadSelectedProperties`: its return value, or the exception
it raises to its caller. -/
def loadSelectedProperties (ls : LocalStorage) : Except JsError (List Json) :=
  match loadTryBlock ls with
  | .ok (some list) => .ok list
  | .ok none => .ok []
  | .error _ => .ok []

/-! ## The page's HTML parser, as far as the cart panel needs it -/

/-- An element of the cart panel that the script or the claims look at: a
`.cart-card` block, or a `.remove-cart-btn` with its `data-idx` attribute
(`none` when the attribute is missing). -/
inductive CartNode where
  | cartCard
  | removeBtn (dataIdx : Option String)
deriving DecidableEq, Repr

/-- A tag while it is being read: whether it is an end tag, its name in lower
case, and the values of its first `class` and `data-idx` attributes. -/
structure TagAcc where
  isEnd : Bool
  name : List Char
  cls : Option (List Char)
  dataIdx : Option (List Char)
deriving DecidableEq, Repr

/-- The states of the HTML tokenizer.  Character references are not decoded
and the tree builder is not modelled: every start tag read gives an element. -/
inductive HtmlState where
  | data
  | tagOpen
  | endTagOpen
  | tagName (t : TagAcc)
  | beforeAttrName (t : TagAcc)
  | attrName (t : TagAcc) (n : List Char)
  | afterAttrName (t : TagAcc) (n : List Char)
  | beforeAttrValue (t : TagAcc) (n : List Char)
  | attrValueDQ (t : TagAcc) (n : List Char) (v : List Char)
  | attrValueSQ (t : TagAcc) (n : List Char) (v : List Char)
  | attrValueUnquoted (t : TagAcc) (n : List Char) (v : List Char)
  | afterAttrValueQuoted (t : TagAcc)
  | selfClosing (t : TagAcc)
  | markupDecl
  | markupDash
  | commentStart
  | commentStartDash
  | comment
  | commentEndDash
  | commentEnd
  | commentEndBang
  | bogusComment
  | rawText (name : List Char)
  | rawLt (name : List Char)
  | rawEndName (name : List Char) (remaining : List Char)
  | plaintext
deriving DecidableEq, Repr

/-- HTML white space. -/
def isHtmlWs (c : Char) : Bool :=
  c.toNat == 9 || c.toNat == 10 || c.toNat == 12 || c.toNat == 13 || c.toNat == 32

/-- An ASCII letter. -/
def isAsciiAlpha (c : Char) : Bool :=
  (65 ≤ c.toNat && c.toNat ≤ 90) || (97 ≤ c.toNat && c.toNat ≤ 122)

/-- The lower-case form of an ASCII upper-case letter, any other character unchanged. -/
def lowerAscii (c : Char) : Char :=
  if 65 ≤ c.toNat && c.toNat ≤ 90 then Char.ofNat (c.toNat + 32) else c

/-- Records an attribute of a tag: only the first `class` and the first
`data-idx` are kept. -/
def TagAcc.setAttr (t : TagAcc) (n v : List Char) : TagAcc :=
  if n == ['c', 'l', 'a', 's', 's'] then
    (match t.cls with
     | none => { t with cls := some v }
     | some _ => t)
  else if n == ['d', 'a', 't', 'a', '-', 'i', 'd', 'x'] then
    (match t.dataIdx with
     | none => { t with dataIdx := some v }
     | some _ => t)
  else t

/-- The class names of a `class` attribute: its white-space separated words. -/
def classTokens : List Char → List Char → List (List Char)
  | [], cur => if cur.isEmpty then [] else [cur.reverse]
  | c :: cs, cur =>
    if isHtmlWs c then (if cur.isEmpty then classTokens cs [] else cur.reverse :: classTokens cs [])
    else classTokens cs (c :: cur)

/-- Whether the tag carries the class `name`. -/
def TagAcc.hasClass (t : TagAcc) (name : List Char) : Bool :=
  match t.cls with
  | none => false
  | some v => (classTokens v []).contains name

/-- The elements whose text the tokenizer reads raw, up to their end tag. -/
def rawTextNames : List (List Char) :=
  ["textarea".toList, "title".toList, "style".toList, "script".toList, "xmp".toList,
   "iframe".toList, "noembed".toList, "noframes".toList, "noscript".toList]

/-- The cart nodes a finished tag gives, and the state after it. -/
def emitTag (t : TagAcc) : HtmlState × List CartNode :=
  if t.isEnd then (.data, [])
  else
    ((if rawTextNames.contains t.name then .rawText t.name
      else if t.name == "plaintext".toList then .plaintext
      else .data),
     (if t.hasClass "cart-card".toList then [CartNode.cartCard] else []) ++
     (if t.hasClass "remove-cart-btn".toList then
        [CartNode.removeBtn (t.dataIdx.map String.mk)] else []))

/-- The start of an attribute name at character `c`, which is neither white
space nor `/` nor `>`. -/
def startAttr (t : TagAcc) (c : Char) : HtmlState × List CartNode :=
  (.attrName t [lowerAscii c], [])

/-- One step of the tokenizer: the state after the character `c` and the cart
nodes of a tag that `c` finishes. -/
def htmlStep (st : HtmlState) (c : Char) : HtmlState × List CartNode :=
  match st with
  | .data => if c.toNat == 60 then (.tagOpen, []) else (.data, [])
  | .tagOpen =>
    if c.toNat == 33 then (.markupDecl, [])
    else if c.toNat == 47 then (.endTagOpen, [])
    else if isAsciiAlpha c then (.tagName ⟨false, [lowerAscii c], none, none⟩, [])
    else if c.toNat == 63 then (.bogusComment, [])
    else if c.toNat == 60 then (.tagOpen, [])
    else (.data, [])
  | .endTagOpen =>
    if isAsciiAlpha c then (.tagName ⟨true, [lowerAscii c], none, none⟩, [])
    else if c.toNat == 62 then (.data, [])
    else (.bogusComment, [])
  | .tagName t =>
    if isHtmlWs c then (.beforeAttrName t, [])
    else if c.toNat == 47 then (.selfClosing t, [])
    else if c.toNat == 62 then emitTag t
    else (.tagName { t with name := t.name ++ [lowerAscii c] }, [])
  | .beforeAttrName t =>
    if isHtmlWs c then (.beforeAttrName t, [])
    else if c.toNat == 47 then (.selfClosing t, [])
    else if c.toNat == 62 then emitTag t
    else startAttr t c
  | .attrName t n =>
    if isHtmlWs c then (.afterAttrName t n, [])
    else if c.toNat == 47 then (.selfClosing (t.setAttr n []), [])
    else if c.toNat == 62 then emitTag (t.setAttr n [])
    else if c.toNat == 61 then (.beforeAttrValue t n, [])
    else (.attrName t (n ++ [lowerAscii c]), [])
  | .afterAttrName t n =>
    if isHtmlWs c then (.afterAttrName t n, [])
    else if c.toNat == 47 then (.selfClosing (t.setAttr n []), [])
    else if c.toNat == 61 then (.beforeAttrValue t n, [])
    else if c.toNat == 62 then emitTag (t.setAttr n [])
    else startAttr (t.setAttr n []) c
  | .beforeAttrValue t n =>
    if isHtmlWs c then (.beforeAttrValue t n, [])
    else if c.toNat == 34 then (.attrValueDQ t n [], [])
    else if c.toNat == 39 then (.attrValueSQ t n [], [])
    else if c.toNat == 62 then emitTag (t.setAttr n [])
    else (.attrValueUnquoted t n [c], [])
  | .attrValueDQ t n v =>
    if c.toNat == 34 then (.afterAttrValueQuoted (t.setAttr n v), [])
    else (.attrValueDQ t n (v ++ [c]), [])
  | .attrValueSQ t n v =>
    if c.toNat == 39 then (.afterAttrValueQuoted (t.setAttr n v), [])
    else (.attrValueSQ t n (v ++ [c]), [])
  | .attrValueUnquoted t n v =>
    if isHtmlWs c then (.beforeAttrName (t.setAttr n v), [])
    else if c.toNat == 62 then emitTag (t.setAttr n v)
    else (.attrValueUnquoted t n (v ++ [c]), [])
  | .afterAttrValueQuoted t =>
    if isHtmlWs c then (.beforeAttrName t, [])
    else if c.toNat == 47 then (.selfClosing t, [])
    else if c.toNat == 62 then emitTag t
    else startAttr t c
  | .selfClosing t =>
    if c.toNat == 62 then emitTag t
    else if isHtmlWs c then (.beforeAttrName t, [])
    else if c.toNat == 47 then (.selfClosing t, [])
    else startAttr t c
  | .markupDecl =>
    if c.toNat == 45 then (.markupDash, [])
    else if c.toNat == 62 then (.data, [])
    else (.bogusComment, [])
  | .markupDash =>
    if c.toNat == 45 then (.commentStart, [])
    else if c.toNat == 62 then (.data, [])
    else (.bogusComment, [])
  | .commentStart =>
    if c.toNat == 45 then (.commentStartDash, [])
    else if c.toNat == 62 then (.data, [])
    else (.comment, [])
  | .commentStartDash =>
    if c.toNat == 45 then (.commentEnd, [])
    else if c.toNat == 62 then (.data, [])
    else (.comment, [])
  | .comment => if c.toNat == 45 then (.commentEndDash, []) else (.comment, [])
  | .commentEndDash => if c.toNat == 45 then (.commentEnd, []) else (.comment, [])
  | .commentEnd =>
    if c.toNat == 62 then (.data, [])
    else if c.toNat == 33 then (.commentEndBang, [])
    else if c.toNat == 45 then (.commentEnd, [])
    else (.comment, [])
  | .commentEndBang =>
    if c.toNat == 45 then (.commentEndDash, [])
    else if c.toNat == 62 then (.data, [])
    else (.comment, [])
  | .bogusComment => if c.toNat == 62 then (.data, []) else (.bogusComment, [])
  | .rawText name => if c.toNat == 60 then (.rawLt name, []) else (.rawText name, [])
  | .rawLt name =>
    if c.toNat == 47 then (.rawEndName name name, [])
    else if c.toNat == 60 then (.rawLt name, [])
    else (.rawText name, [])
  | .rawEndName name remaining =>
    match remaining with
    | r :: rs =>
      if lowerAscii c == r then (.rawEndName name rs, [])
      else if c.toNat == 60 then (.rawLt name, [])
      else (.rawText name, [])
    | [] =>
      if isHtmlWs c then (.beforeAttrName ⟨true, name, none, none⟩, [])
      else if c.toNat == 47 then (.selfClosing ⟨true, name, none, none⟩, [])
      else if c.toNat == 62 then (.data, [])
      else if c.toNat == 60 then (.rawLt name, [])
      else (.rawText name, [])
  | .plaintext => (.plaintext, [])

/-- The cart nodes of an HTML text read from state `st`, in document order. -/
def scanHtml : HtmlState → List Char → List CartNode
  | _, [] => []
  | st, c :: rest => (htmlStep st c).2 ++ scanHtml (htmlStep st c).1 rest

/-- The `data-idx` attributes of the elements that
`querySelectorAll(".remove-cart-btn")` finds, in document order. -/
def removeCartBtns : List CartNode → List (Option String)
  | [] => []
  | .removeBtn d :: rest => d :: removeCartBtns rest
  | .cartCard :: rest => removeCartBtns rest

/-! ## Cart controller -/

/-- `allPropertyCards.indexOf(card)`: elements are compared by identity. -/
def indexOf (allPropertyCards : List Card) (card : Card) : Int :=
  match allPropertyCards.findIdx? (fun c => c.node == card.node) with
  | some i => i
  | none => -1

/-- The function `getPropertyData`. -/
def getPropertyData (allPropertyCards : List Card) (card : Card) : SelectedProperty :=
  { img := orElseStr card.imgSrc ""
    price := orElseStr card.priceText ""
    meta := orElseStr card.metaText ""
    badges := orElseStr card.badgesText ""
    details := card.extraDetails.map (fun li => { label := li.dataLabel, value := li.textContent })
    cardIdx := indexOf allPropertyCards card }

/-- The identity test `p.img === propData.img && p.price === propData.price`. -/
def sameIdentity (propData p : SelectedProperty) : Bool :=
  p.img == propData.img && p.price == propData.price

/-- The state the cart handlers work on: the in-memory selection list and the store. -/
structure CartState where
  selectedProperties : List SelectedProperty
  localStorage : LocalStorage
deriving DecidableEq, Repr

/-- The click handler of the select button at position `idx`. -/
def selectClick (allPropertyCards : List Card) (idx : Nat) (st : CartState) : CartState :=
  match allPropertyCards[idx]? with
  | none => st
  | some card =>
    let propData := getPropertyData allPropertyCards card
    let isSelected := st.selectedProperties.any (sameIdentity propData)
    if !isSelected then
      { selectedProperties := st.selectedProperties ++ [propData]
        localStorage := saveSelectedProperties (st.selectedProperties ++ [propData]) st.localStorage }
    else
      { selectedProperties := st.selectedProperties.filter (fun p => !sameIdentity propData p)
        localStorage :=
          saveSelectedProperties (st.selectedProperties.filter (fun p => !sameIdentity propData p))
            st.localStorage }

/-- `array.splice(start, 1)`: a negative start counts from the end, `NaN` is 0,
the infinities are the two ends, and nothing is deleted when the start is at
or past the end. -/
def splice1 {α : Type} (start : JsNum) (l : List α) : List α :=
  let len : Int := l.length
  let actualStart : Int :=
    match start with
    | .nan => 0
    | .negInf => 0
    | .finite rel => if rel < 0 then max (len + rel) 0 else min rel len
    | .posInf => len
  l.eraseIdx actualStart.toNat

/-- The click handler of a remove button whose `data-idx` attribute is `dataIdx`. -/
def removeClick (dataIdx : String) (st : CartState) : CartState :=
  { selectedProperties := splice1 (parseInt dataIdx) st.selectedProperties
    localStorage :=
      saveSelectedProperties (splice1 (parseInt dataIdx) st.selectedProperties) st.localStorage }

/-- A select button: its label and whether it carries the class `selected`. -/
structure SelectBtn where
  textContent : String
  selected : Bool
deriving DecidableEq, Repr

/-- What `updateCart` leaves on a page that has the cart elements: the text of
`#cartCount`, the `innerHTML` given to `#cartProperties`, the `data-idx`
attributes of the remove buttons that got a click listener, and the select
buttons. -/
structure CartView where
  cartCount : String
  innerHTML : String
  removeBtns : List (Option String)
  selectBtns : List SelectBtn
deriving DecidableEq, Repr

/-- The text of one entry of `details` in a cart card; a `null` label is
written as the word `null`. -/
def detailHtml (d : Detail) : List Char :=
  "<li><span class='modal-details-label'>".toList ++ ((d.label.getD "null").toList ++
    (":</span> <span class='modal-details-value'>".toList ++ (d.value.toList ++
      "</span></li>".toList)))

/-- The texts of the entries of `details`, joined with nothing between them. -/
def detailsHtml : List Detail → List Char
  | [] => []
  | d :: rest => detailHtml d ++ detailsHtml rest

/-- The text of one cart card, as the template literal of `updateCart` writes
it: the fields of the record go in as they are, nothing is escaped. -/
def cartCardHtml (prop : SelectedProperty) (idx : Nat) : List Char :=
  "\n        <div class=\"cart-card\">\n          <img src=\"".toList ++ (prop.img.toList ++
  ("\" style=\"width:100%;border-radius:1rem;margin-bottom:1rem;max-width:200px;\" />\n          <h3>".toList ++
  (prop.price.toList ++
  ("</h3>\n          <div class=\"meta\">".toList ++ (prop.meta.toList ++
  ("</div>\n          <div class=\"badges\">".toList ++ (prop.badges.toList ++
  ("</div>\n          <ul class=\"modal-details-list\">\n            ".toList ++
  (detailsHtml prop.details ++
  ("\n          </ul>\n          <button class=\"remove-cart-btn\" data-idx=\"".toList ++
  (Nat.toDigits 10 idx ++
  "\">Remove</button>\n        </div>\n      ".toList)))))))))))

/-- The text `updateCart` gives to `innerHTML`: the cart cards from position
`idx` on, joined with nothing between them. -/
def cartHtml : Nat → List SelectedProperty → List Char
  | _, [] => []
  | idx, prop :: rest => cartCardHtml prop idx ++ cartHtml (idx + 1) rest

/-- The label and class `updateCart` gives the select buttons from position
`idx` on: a button without a card is left as it is. -/
def renderSelectBtns (selectedProperties : List SelectedProperty) (allPropertyCards : List Card) :
    Nat → List SelectBtn → List SelectBtn
  | _, [] => []
  | idx, btn :: rest =>
    (match allPropertyCards[idx]? with
     | none => btn
     | some card =>
       if selectedProperties.any (sameIdentity (getPropertyData allPropertyCards card)) then
         { textContent := "Unselect", selected := true }
       else { textContent := "Select", selected := false }) ::
      renderSelectBtns selectedProperties allPropertyCards (idx + 1) rest

/-- The function `updateCart`.  With an empty list it writes the placeholder
and returns before it looks for remove buttons; otherwise the page parses the
text it is given and every `.remove-cart-btn` found gets a click listener. -/
def updateCart (selectedProperties : List SelectedProperty) (allPropertyCards : List Card)
    (selectBtns : List SelectBtn) : CartView :=
  if selectedProperties.length = 0 then
    { cartCount := String.mk (Nat.toDigits 10 selectedProperties.length)
      innerHTML := "<p>No properties selected yet.</p>"
      removeBtns := []
      selectBtns := selectBtns.map (fun _ => { textContent := "Select", selected := false }) }
  else
    { cartCount := String.mk (Nat.toDigits 10 selectedProperties.length)
      innerHTML := String.mk (cartHtml 0 selectedProperties)
      removeBtns := removeCartBtns (scanHtml .data (cartHtml 0 selectedProperties))
      selectBtns := renderSelectBtns selectedProperties allPropertyCards 0 selectBtns }

/-- An action on the cart: a click on the select button at a position, or a
click on a remove button carrying a `data-idx` attribute. -/
inductive CartAction where
  | select (idx : Nat)
  | remove (dataIdx : String)
deriving DecidableEq, Repr

/-- The handler an action runs. -/
def cartStep (allPropertyCards : List Card) (st : CartState) : CartAction → CartState
  | .select idx => selectClick allPropertyCards idx st
  | .remove dataIdx => removeClick dataIdx st

/-- The state after a sequence of actions. -/
def cartRun (allPropertyCards : List Card) (st : CartState) (actions : List CartAction) : CartState :=
  actions.foldl (cartStep allPropertyCards) st

/-! ## Overlays and focus -/

/-- The elements that take part in focus handling. -/
inductive Element where
  | body
  | cartBtn
  | closeCartPanelBtn
  | cartPanel
  | quickViewBtn (i : Nat)
  | closeModalBtn
  | modal
  | contactBtn (i : Nat)
  | visitorName
  | closeAgentModal
  | agentContactCancel
  | agentModal
  | other (i : Nat)
deriving DecidableEq, Repr

/-- Which of the optional elements the page has. -/
structure Page where
  cartBtn : Bool
  cartPanel : Bool
  closeCartPanelBtn : Bool
  modal : Bool
  modalDetails : Bool
  closeModalBtn : Bool
  agentModal : Bool
  agentModalName : Bool
  agentModalInfo : Bool
  closeAgentModal : Bool
  agentContactCancel : Bool
  agentContactForm : Bool
  visitorName : Bool
deriving DecidableEq, Repr

/-- The focus and overlay state: `document.activeElement`, the variable
`lastActiveElement`, and the class `active` of each overlay. -/
structure UiState where
  activeElement : Element
  lastActiveElement : Option Element
  cartPanelActive : Bool
  modalActive : Bool
  agentModalActive : Bool
deriving DecidableEq, Repr

/-- The statement `lastActiveElement?.focus?.()`. -/
def restoreFocus (st : UiState) : UiState :=
  match st.lastActiveElement with
  | some e => { st with activeElement := e }
  | none => st

/-- The click handler of the cart button. -/
def cartBtnClick (page : Page) (st : UiState) : UiState :=
  if page.cartBtn && page.cartPanel then
    { st with
      lastActiveElement := some st.activeElement
      cartPanelActive := true
      activeElement := if page.closeCartPanelBtn then .closeCartPanelBtn else st.activeElement }
  else st

/-- The click handler of the close button of the cart panel. -/
def closeCartPanelBtnClick (page : Page) (st : UiState) : UiState :=
  if page.closeCartPanelBtn && page.cartPanel then
    restoreFocus { st with cartPanelActive := false }
  else st

/-- The two click handlers on `window`, for a click whose target is `target`. -/
def windowClick (page : Page) (target : Element) (st : UiState) : UiState :=
  let st1 := if page.cartPanel && target == .cartPanel then { st with cartPanelActive := false } else st
  if page.modal && target == .modal then { st1 with modalActive := false } else st1

/-- The click handler of the quick-view button `i` of a card. -/
def quickViewBtnClick (page : Page) (i : Nat) (st : UiState) : UiState :=
  if page.modal && page.modalDetails then
    { st with
      lastActiveElement := some (.quickViewBtn i)
      modalActive := true
      activeElement := if page.closeModalBtn then .closeModalBtn else st.activeElement }
  else st

/-- The click handler of the close button of the quick-view modal. -/
def closeModalBtnClick (page : Page) (st : UiState) : UiState :=
  if page.closeModalBtn && page.modal then { st with modalActive := false } else st

/-- The click handler of the contact button `i` whose agent card exists.  The
handler writes to `#agentModalName` and `#agentModalInfo` before it opens the
modal: when one of them is missing that write throws a `TypeError` and the
handler ends there, the state unchanged. -/
def contactBtnClick (page : Page) (i : Nat) (st : UiState) : UiState :=
  if page.agentModal then
    if page.agentModalName && page.agentModalInfo then
      { st with
        lastActiveElement := some (.contactBtn i)
        agentModalActive := true
        activeElement := if page.visitorName then .visitorName else st.activeElement }
    else st
  else st

/-- The function `closeAgentModalFn`. -/
def closeAgentModalFn (page : Page) (st : UiState) : UiState :=
  if page.agentModal then restoreFocus { st with agentModalActive := false } else st

/-- The click handler of the close button of the agent modal. -/
def closeAgentModalClick (page : Page) (st : UiState) : UiState :=
  if page.closeAgentModal && page.agentModal then closeAgentModalFn page st else st

/-- The click handler of the cancel button of the agent form. -/
def agentContactCancelClick (page : Page) (st : UiState) : UiState :=
  if page.agentContactCancel && page.agentModal then closeAgentModalFn page st else st

/-- The submit handler of the agent form, as far as focus goes.  It reads
`agentModalName.textContent` for its message first: when `#agentModalName` is
missing that read throws a `TypeError` and the modal stays open. -/
def agentContactFormSubmit (page : Page) (st : UiState) : UiState :=
  if page.agentContactForm then
    if page.agentModalName then
      (if page.agentModal then closeAgentModalFn page st else st)
    else st
  else st

/-- The `keydown` handler for the Escape key. -/
def escapeKeydown (page : Page) (st : UiState) : UiState :=
  if page.agentModal && st.agentModalActive then closeAgentModalFn page st
  else if page.modal && st.modalActive then restoreFocus { st with modalActive := false }
  else if page.cartPanel && st.cartPanelActive then restoreFocus { st with cartPanelActive := false }
  else st

/-! ## Sample data -/

/-- A listing card priced "$450,000" with three bedrooms. -/
def card450 : Card :=
  { node := 0, imgSrc := some "a.jpg", priceText := some "$450,000",
    metaText := some "3 Beds • 2 Baths", badgesText := some "New",
    extraDetails := [{ dataLabel := some "Location", textContent := "Accra" },
                     { dataLabel := none, textContent := "Pool\n" }] }

/-- A second listing card. -/
def card900 : Card :=
  { node := 1, imgSrc := some "b.jpg", priceText := some "$900,000",
    metaText := some "5 Beds", badgesText := none, extraDetails := [] }

/-- A listing card whose bed count is 2^53, the first integer whose successor
no double holds. -/
def cardHuge : Card :=
  { node := 2, imgSrc := none, priceText := none,
    metaText := some "9007199254740992 Beds", badgesText := none, extraDetails := [] }

/-- A stored record whose meta text holds markup. -/
def markupRecord : SelectedProperty :=
  { img := "b.jpg", price := "$900,000", meta := "<textarea>", badges := "", details := [],
    cardIdx := 1 }

/-- A page with the two sample cards. -/
def sampleCards : List Card := [card450, card900]

/-- A store that works and has room. -/
def emptyStorage : LocalStorage := { items := [], accessible := true, quota := 5000000 }

/-- A store that refuses every write. -/
def fullStorage : LocalStorage := { items := [], accessible := true, quota := 0 }

/-- A store that holds the saved record of the second sample card and has no
room for a longer text. -/
def staleStorage : LocalStorage :=
  { items := [("selectedProperties",
      JSON.stringify (.arr [(getPropertyData sampleCards card900).toJson]))],
    accessible := true, quota := 150 }

/-- A page that has every optional element. -/
def fullPage : Page :=
  { cartBtn := true, cartPanel := true, closeCartPanelBtn := true, modal := true,
    modalDetails := true, closeModalBtn := true, agentModal := true, agentModalName := true,
    agentModalInfo := true, closeAgentModal := true, agentContactCancel := true,
    agentContactForm := true, visitorName := true }

/-! ## Vocabulary of the properties -/

/-- The guard of the `location` check. -/
def locationFails (toLowerCase : String → String) (card : Card) (v : Option String) : Bool :=
  truthy v &&
    !detailIncludes toLowerCase card.extraDetails "Location" (toLowerCase (v.getD ""))
/-- The guard of the `type` check. -/
def typeFails (toLowerCase : String → String) (card : Card) (v : Option String) : Bool :=
  truthy v &&
    detailsLookup toLowerCase card.extraDetails "Type" != some (toLowerCase (v.getD ""))
/-- The guard of the `bedrooms` check. -/
def bedroomsFails (card : Card) (v : Option String) : Bool :=
  truthy v && jsLt (bedCount (orElseStr card.metaText "")) (parseInt (v.getD ""))
/-- The guard of the `amenities` check. -/
def amenitiesFails (toLowerCase : String → String) (card : Card) (v : Option String) : Bool :=
  truthy v &&
    !detailIncludes toLowerCase card.extraDetails "Amenities" (toLowerCase (v.getD ""))
/-- The guard of the `minPrice` check. -/
def minPriceFails (card : Card) (v : Option String) : Bool :=
  truthy v && jsLt (cardPrice card) (parseInt (v.getD ""))
/-- The guard of the `maxPrice` check. -/
def maxPriceFails (card : Card) (v : Option String) : Bool :=
  truthy v && jsGt (cardPrice card) (parseInt (v.getD ""))

/-- The text `sub` occurs somewhere in the text `s`. -/
def IsSubstring (sub s : List Char) : Prop := ∃ pre post, s = pre ++ (sub ++ post)

/-- The detail value of a card under a label: the text of the last `li` of
`.extra-details` whose `data-label` is that label. -/
def IsDetailValue (card : Card) (label text : String) : Prop :=
  ∃ before li after, card.extraDetails = before ++ li :: after ∧
    li.dataLabel = some label ∧ li.textContent = text ∧
    ∀ x ∈ after, x.dataLabel ≠ some label

/-- The literal part of the pattern. -/
def bedsLiteral : List Char := [' ', 'B', 'e', 'd', 's']

/-- An occurrence of "<N> Beds" in a text: after `pre` come the digits `ds` of
`N`, then the literal " Beds". -/
def IsBedsOccurrence (text pre ds post : List Char) : Prop :=
  text = pre ++ (ds ++ (bedsLiteral ++ post)) ∧ ds ≠ [] ∧ ∀ c ∈ ds, isDigit c = true

/-- The first occurrence of "<N> Beds" in a text: no occurrence starts earlier. -/
def IsFirstBedsOccurrence (text pre ds post : List Char) : Prop :=
  IsBedsOccurrence text pre ds post ∧
    ∀ pre1 ds1 post1, IsBedsOccurrence text pre1 ds1 post1 → pre.length ≤ pre1.length

/-- The bed count of a card: the integer `N` of the first "<N> Beds" of its
meta text, and 0 when the meta text has no such occurrence. -/
def IsBedCount (card : Card) (n : Nat) : Prop :=
  (∃ pre ds post, IsFirstBedsOccurrence (orElseStr card.metaText "").toList pre ds post ∧
    n = digitsValue ds) ∨
  ((∀ pre ds post, ¬ IsBedsOccurrence (orElseStr card.metaText "").toList pre ds post) ∧ n = 0)

/-- The price of a card: the integer its price text denotes once every
character that is not a digit is taken out, 0 when no digit is left or the
card has no price element. -/
def priceOf (card : Card) : Nat :=
  match card.priceText with
  | some t => digitsValue (t.toList.filter isDigit)
  | none => 0

/-- The comparison `a <= b` on numbers: false as soon as one side is `NaN`. -/
def jsLe (a b : JsNum) : Bool :=
  match a, b with
  | .nan, _ => false
  | _, .nan => false
  | .negInf, _ => true
  | .finite _, .negInf => false
  | .finite x, .finite y => decide (x ≤ y)
  | .finite _, .posInf => true
  | .posInf, .posInf => true
  | .posInf, _ => false

/-- The `location` criterion `v` on its own: the card has a "Location" detail
and `v` occurs in it, letter case aside. -/
def PassesLocation (toLowerCase : String → String) (card : Card) (v : String) : Prop :=
  ∃ text, IsDetailValue card "Location" text ∧
    IsSubstring (toLowerCase v).toList (toLowerCase text).toList

/-- The `type` criterion `v` on its own: the card has a "Type" detail and it is
`v`, letter case aside. -/
def PassesType (toLowerCase : String → String) (card : Card) (v : String) : Prop :=
  ∃ text, IsDetailValue card "Type" text ∧ toLowerCase text = toLowerCase v

/-- The `amenities` criterion `v` on its own: the card has an "Amenities" detail
and `v` occurs in it, letter case aside. -/
def PassesAmenities (toLowerCase : String → String) (card : Card) (v : String) : Prop :=
  ∃ text, IsDetailValue card "Amenities" text ∧
    IsSubstring (toLowerCase v).toList (toLowerCase text).toList

/-- The `bedrooms` criterion `v` on its own: the bed count is at least the
number `parseInt` reads in `v`; a `v` that is not a number asks for nothing. -/
def PassesBedrooms (card : Card) (v : String) : Prop :=
  ∃ n, IsBedCount card n ∧
    (parseInt v = .nan ∨ jsLe (parseInt v) (toJsNum false n) = true)

/-- The `minPrice` criterion `v` on its own: the price is at least the number
`parseInt` reads in `v`; a `v` that is not a number asks for nothing. -/
def PassesMinPrice (card : Card) (v : String) : Prop :=
  parseInt v = .nan ∨ jsLe (parseInt v) (toJsNum false (priceOf card)) = true

/-- The `maxPrice` criterion `v` on its own: the price is at most the number
`parseInt` reads in `v`; a `v` that is not a number asks for nothing. -/
def PassesMaxPrice (card : Card) (v : String) : Prop :=
  parseInt v = .nan ∨ jsLe (toJsNum false (priceOf card)) (parseInt v) = true

/-- The value of the field `key` in a form: that of the last entry of that name
whose value is not empty. -/
def formValue (formData : List (String × String)) (key : String) : Option String :=
  ((formData.filter (fun e => e.1 == key && !e.2.toList.isEmpty)).getLast?).map (fun e => e.2)

/-- The criteria of a form: for each of the six names the value of its field. -/
def formFilters (formData : List (String × String)) : Filters :=
  { location := formValue formData "location"
    type := formValue formData "type"
    bedrooms := formValue formData "bedrooms"
    amenities := formValue formData "amenities"
    minPrice := formValue formData "minPrice"
    maxPrice := formValue formData "maxPrice" }

/-- The card passes each criterion that is present in the mapping, taken on
its own.  A criterion is present when it has a value and the value is not
empty: the form never stores an empty one. -/
def PassesEachPresent (toLowerCase : String → String) (card : Card) (filters : Filters) : Prop :=
  (∀ v, filters.location = some v → v.toList ≠ [] → PassesLocation toLowerCase card v) ∧
  (∀ v, filters.type = some v → v.toList ≠ [] → PassesType toLowerCase card v) ∧
  (∀ v, filters.bedrooms = some v → v.toList ≠ [] → PassesBedrooms card v) ∧
  (∀ v, filters.amenities = some v → v.toList ≠ [] → PassesAmenities toLowerCase card v) ∧
  (∀ v, filters.minPrice = some v → v.toList ≠ [] → PassesMinPrice card v) ∧
  (∀ v, filters.maxPrice = some v → v.toList ≠ [] → PassesMaxPrice card v)

/-- The identity of a record for selection purposes. -/
def identity (p : SelectedProperty) : String × String := (p.img, p.price)

/-- No two entries of the list share the same `(img, price)` pair. -/
def UniqueIdentity (l : List SelectedProperty) : Prop :=
  l.Pairwise (fun a b => identity a ≠ identity b)

instance (l : List SelectedProperty) : Decidable (UniqueIdentity l) := by
  unfold UniqueIdentity; infer_instance

/-- The text of an index in a `data-idx` attribute. -/
def indexText (idx : Nat) : String := String.mk (Nat.toDigits 10 idx)

/-- A text without the character `<`: put into `innerHTML` it stays text. -/
def NoMarkup (s : String) : Prop := ∀ c ∈ s.toList, c.toNat ≠ 60

/-- A text without the character `"`: put between double quotes it stays the
value of the attribute. -/
def NoQuote (s : String) : Prop := ∀ c ∈ s.toList, c.toNat ≠ 34

instance (s : String) : Decidable (NoMarkup s) := by
  unfold NoMarkup; infer_instance

instance (s : String) : Decidable (NoQuote s) := by
  unfold NoQuote; infer_instance

/-- A record whose texts bring no markup of their own into the cart panel. -/
def MarkupFree (p : SelectedProperty) : Prop :=
  NoQuote p.img ∧ NoMarkup p.price ∧ NoMarkup p.meta ∧ NoMarkup p.badges ∧
    ∀ d ∈ p.details, NoMarkup (d.label.getD "null") ∧ NoMarkup d.value

instance (p : SelectedProperty) : Decidable (MarkupFree p) := by
  unfold MarkupFree; infer_instance

/-- The cart nodes of a panel that shows `n` records from position `start` on:
each cart card with its remove button, the button carrying the position. -/
def cartNodesOf : Nat → Nat → List CartNode
  | _, 0 => []
  | start, n + 1 =>
    .cartCard :: .removeBtn (some (indexText start)) :: cartNodesOf (start + 1) n

/-- The tokenizer run over a text: the state it ends in and the cart nodes read. -/
def runHtml : HtmlState → List Char → HtmlState × List CartNode
  | st, [] => (st, [])
  | st, c :: rest =>
    ((runHtml (htmlStep st c).1 rest).1, (htmlStep st c).2 ++ (runHtml (htmlStep st c).1 rest).2)

/-- The characters that follow a value inside an array or an object. -/
def isDelim (c : Char) : Bool := c.toNat == 44 || c.toNat == 125 || c.toNat == 93

/-- The reader `pv` reads the text of `v`, followed by a delimiter, back as `v`. -/
def ReadsBack (pv : List Char → Option (Json × List Char)) (v : Json) : Prop :=
  ∀ d t, isDelim d = true → pv (stringifyChars v ++ d :: t) = some (v, d :: t)

/-- The write of the selection list `sel` to the store `ls` goes through. -/
def WriteSucceeds (ls : LocalStorage) (sel : List SelectedProperty) : Prop :=
  ∃ ls1, ls.setItem STORAGE_KEY (JSON.stringify (.arr (sel.map SelectedProperty.toJson))) = .ok ls1

/-- A reader that consumes at least one character whenever it succeeds. -/
def Shrinks (pv : List Char → Option (Json × List Char)) : Prop :=
  ∀ cs v rest, pv cs = some (v, rest) → rest.length < cs.length

/-! ## `parseInt` on strings of decimal digits -/

theorem digitVal_of_isDigit {c : Char} (h : isDigit c = true) :
    digitVal 10 c = some (c.toNat - 48) := by
  simp only [isDigit, Bool.and_eq_true, decide_eq_true_eq] at h
  have h1 : (decide (48 ≤ c.toNat) && decide (c.toNat ≤ 57)) = true := by simp [h.1, h.2]
  have h2 : c.toNat - 48 < 10 := by omega
  simp only [digitVal, h1, if_true, h2]

theorem isJsWhiteSpace_of_isDigit {c : Char} (h : isDigit c = true) : isJsWhiteSpace c = false := by
  simp only [isDigit, Bool.and_eq_true, decide_eq_true_eq] at h
  simp only [isJsWhiteSpace, Bool.or_eq_false_iff, Bool.and_eq_false_iff, beq_eq_false_iff_ne,
    decide_eq_false_iff_not]
  omega

theorem readDigits_of_digits (cs : List Char) (h : ∀ c ∈ cs, isDigit c = true) (acc cnt : Nat) :
    readDigits 10 cs acc cnt =
      (cs.foldl (fun a c => a * 10 + (c.toNat - 48)) acc, cnt + cs.length) := by
  induction cs generalizing acc cnt with
  | nil => rfl
  | cons c cs ih =>
    have hc := h c (List.mem_cons_self _ _)
    simp only [readDigits, digitVal_of_isDigit hc, List.foldl_cons, List.length_cons]
    rw [ih (fun x hx => h x (List.mem_cons_of_mem _ hx))]
    congr 1
    omega

theorem parseIntDigits_of_digits (cs : List Char) (hne : cs ≠ [])
    (h : ∀ c ∈ cs, isDigit c = true) : parseIntDigits 10 cs = some (digitsValue cs) := by
  have hlen : cs.length ≠ 0 := by
    cases cs with
    | nil => exact absurd rfl hne
    | cons _ _ => simp
  simp only [parseIntDigits, readDigits_of_digits cs h, Nat.zero_add, hlen, if_false, digitsValue]

theorem parseIntUnsigned_of_digits (cs : List Char) (hne : cs ≠ [])
    (h : ∀ c ∈ cs, isDigit c = true) : parseIntUnsigned cs = some (digitsValue cs) := by
  match cs, hne, h with
  | [c], hne, h => exact parseIntDigits_of_digits [c] hne h
  | c :: d :: rest, hne, h =>
    have hd := h d (by simp)
    simp only [isDigit, Bool.and_eq_true, decide_eq_true_eq] at hd
    have hx : (c.toNat == 48 && (d.toNat == 120 || d.toNat == 88)) = false := by
      have h1 : (d.toNat == 120) = false := by simp; omega
      have h2 : (d.toNat == 88) = false := by simp; omega
      simp [h1, h2]
    simp only [parseIntUnsigned, hx]
    exact parseIntDigits_of_digits _ hne h

/-- On a non-empty string of decimal digits `parseInt` gives the double nearest
to the number they denote. -/
theorem parseInt_of_digits (s : String) (hne : s.toList ≠ [])
    (h : ∀ c ∈ s.toList, isDigit c = true) :
    parseInt s = toJsNum false (digitsValue s.toList) := by
  unfold parseInt
  match hs : s.toList, hne, h with
  | c :: rest, hne, h =>
    have hc := h c (List.mem_cons_self _ _)
    have hw := isJsWhiteSpace_of_isDigit hc
    simp only [isDigit, Bool.and_eq_true, decide_eq_true_eq] at hc
    have h45 : (c.toNat == 45) = false := by simp; omega
    have h43 : (c.toNat == 43) = false := by simp; omega
    simp only [List.dropWhile, hw, h45, h43]
    rw [parseIntUnsigned_of_digits _ hne h]
    rfl

/-- Below 2^53 a number is its own double. -/
theorem toJsNum_of_lt (n : Nat) (h : n < 9007199254740992) :
    toJsNum false n = .finite (n : Int) := by
  simp [toJsNum, roundToDouble, h]

theorem toJsNum_ne_nan (n : Nat) : toJsNum false n ≠ .nan := by
  unfold toJsNum
  cases roundToDouble n <;> simp

/-- The number of a digit string is never below zero. -/
theorem jsLt_toJsNum_zero (n : Nat) : jsLt (toJsNum false n) (.finite 0) = false := by
  unfold toJsNum
  cases roundToDouble n with
  | finite v => simp [jsLt]
  | infinite => rfl

theorem jsLt_nan_right (a : JsNum) : jsLt a .nan = false := by
  cases a <;> rfl

theorem jsLt_nan_left (a : JsNum) : jsLt .nan a = false := by
  cases a <;> rfl

/-- For two numbers that are not `NaN`, `a < b` fails exactly when `b <= a`. -/
theorem jsLt_eq_false_iff (a b : JsNum) (ha : a ≠ .nan) :
    jsLt a b = false ↔ (b = .nan ∨ jsLe b a = true) := by
  cases a <;> cases b <;> simp [jsLt, jsLe] at ha ⊢

theorem jsLt_finite (x y : Int) : jsLt (.finite x) (.finite y) = decide (x < y) := rfl

/-! ## The pattern `/(\d+) Beds/` -/

theorem bedsLiteral_not_prefix_of_digit {c : Char} (rest : List Char) (h : isDigit c = true) :
    bedsLiteral.isPrefixOf (c :: rest) = false := by
  simp only [isDigit, Bool.and_eq_true, decide_eq_true_eq] at h
  have : (' ' == c) = false := by
    rw [beq_eq_false_iff_ne]
    intro hc
    rw [← hc] at h
    revert h
    decide
  simp [bedsLiteral, List.isPrefixOf, this]

theorem drop_lt_takeWhile (cs : List Char) (k : Nat) (hk : k < (cs.takeWhile isDigit).length) :
    ∃ c rest, cs.drop k = c :: rest ∧ isDigit c = true := by
  induction cs generalizing k with
  | nil => simp at hk
  | cons a as ih =>
    by_cases ha : isDigit a = true
    · rw [List.takeWhile_cons_of_pos ha] at hk
      cases k with
      | zero => exact ⟨a, as, rfl, ha⟩
      | succ k =>
        simp only [List.length_cons, Nat.add_lt_add_iff_right] at hk
        simpa using ih k hk
    · rw [List.takeWhile_cons_of_neg ha] at hk
      simp at hk

theorem take_length_takeWhile (cs : List Char) :
    cs.take (cs.takeWhile isDigit).length = cs.takeWhile isDigit := by
  induction cs with
  | nil => rfl
  | cons a as ih =>
    by_cases ha : isDigit a = true
    · simp [List.takeWhile_cons_of_pos ha, ih]
    · simp [List.takeWhile_cons_of_neg ha]

theorem drop_length_takeWhile (cs : List Char) :
    cs.drop (cs.takeWhile isDigit).length = cs.dropWhile isDigit := by
  induction cs with
  | nil => rfl
  | cons a as ih =>
    by_cases ha : isDigit a = true
    · simp [List.takeWhile_cons_of_pos ha, List.dropWhile_cons_of_pos ha, ih]
    · simp [List.takeWhile_cons_of_neg ha, List.dropWhile_cons_of_neg ha]

/-- Giving digits back never helps: the attempt succeeds exactly when the
literal follows the whole run of digits. -/
theorem bedsAt_eq (cs : List Char) :
    bedsAt cs =
      if (cs.takeWhile isDigit).length ≠ 0 ∧ bedsLiteral.isPrefixOf (cs.dropWhile isDigit) = true
      then some (cs.takeWhile isDigit) else none := by
  unfold bedsAt
  have hlit : " Beds".toList = bedsLiteral := rfl
  simp only [hlit]
  cases hn : (cs.takeWhile isDigit).length with
  | zero => simp
  | succ m =>
    have hrest : ∀ k ∈ ((List.range m).reverse.map (fun k => k + 1)),
        (if bedsLiteral.isPrefixOf (cs.drop k) = true then some (cs.take k) else none) = none := by
      intro k hk
      simp only [List.mem_map, List.mem_reverse, List.mem_range] at hk
      obtain ⟨j, hj, rfl⟩ := hk
      obtain ⟨c, rest, hdrop, hc⟩ := drop_lt_takeWhile cs (j + 1) (by omega)
      rw [hdrop, bedsLiteral_not_prefix_of_digit rest hc]
      simp
    rw [List.range_succ, List.reverse_append, List.reverse_singleton, List.singleton_append,
      List.map_cons, List.findSome?_cons]
    have htake : cs.take (m + 1) = cs.takeWhile isDigit := by rw [← hn, take_length_takeWhile]
    have hdrop : cs.drop (m + 1) = cs.dropWhile isDigit := by rw [← hn, drop_length_takeWhile]
    rw [htake, hdrop]
    by_cases hp : bedsLiteral.isPrefixOf (cs.dropWhile isDigit) = true
    · simp [hp]
    · simp only [hp, if_false, and_false]
      exact List.findSome?_eq_none_iff.mpr hrest

theorem takeWhile_digits_append (ds post : List Char) (h : ∀ c ∈ ds, isDigit c = true) :
    (ds ++ (bedsLiteral ++ post)).takeWhile isDigit = ds ∧
    (ds ++ (bedsLiteral ++ post)).dropWhile isDigit = bedsLiteral ++ post := by
  induction ds with
  | nil => exact ⟨rfl, rfl⟩
  | cons a as ih =>
    have ha := h a (List.mem_cons_self _ _)
    have := ih (fun x hx => h x (List.mem_cons_of_mem _ hx))
    simp only [List.cons_append, List.takeWhile_cons_of_pos ha, List.dropWhile_cons_of_pos ha,
      this.1, this.2, and_self]

theorem bedsAt_some_iff (cs ds : List Char) :
    bedsAt cs = some ds ↔ ∃ post, IsBedsOccurrence cs [] ds post := by
  rw [bedsAt_eq]
  constructor
  · intro h
    split_ifs at h with hc
    obtain ⟨hlen, hpre⟩ := hc
    cases h
    rw [List.isPrefixOf_iff_prefix] at hpre
    obtain ⟨post, hpost⟩ := hpre
    refine ⟨post, ?_, ?_, ?_⟩
    · rw [List.nil_append, hpost, List.takeWhile_append_dropWhile]
    · intro hnil
      rw [hnil] at hlen
      exact hlen rfl
    · intro c hc
      exact (List.mem_takeWhile_imp hc)
  · rintro ⟨post, hcs, hne, hd⟩
    rw [List.nil_append] at hcs
    obtain ⟨ht, hdw⟩ := takeWhile_digits_append ds post hd
    rw [hcs, ht, hdw]
    have hlen : ds.length ≠ 0 := by
      cases ds with
      | nil => exact absurd rfl hne
      | cons _ _ => simp
    have hp : bedsLiteral.isPrefixOf (bedsLiteral ++ post) = true := by
      rw [List.isPrefixOf_iff_prefix]
      exact List.prefix_append _ _
    simp [hlen, hp]

theorem bedsMatch_cons (c : Char) (cs : List Char) :
    bedsMatch (c :: cs) =
      match bedsAt (c :: cs) with
      | some ds => some ds
      | none => bedsMatch cs := rfl

/-- The match is the leftmost occurrence. -/
theorem bedsMatch_first (text pre ds post : List Char)
    (hocc : IsBedsOccurrence text pre ds post)
    (hmin : ∀ pre1 ds1 post1, IsBedsOccurrence text pre1 ds1 post1 → pre.length ≤ pre1.length) :
    bedsMatch text = some ds := by
  induction pre generalizing text with
  | nil =>
    have hat : bedsAt text = some ds := (bedsAt_some_iff text ds).mpr ⟨post, hocc⟩
    obtain ⟨htext, hne, _⟩ := hocc
    cases text with
    | nil =>
      cases ds with
      | nil => exact absurd rfl hne
      | cons _ _ => simp at htext
    | cons c cs => simp only [bedsMatch, hat]
  | cons p pre ih =>
    obtain ⟨htext, hne, hd⟩ := hocc
    subst htext
    have hat : bedsAt (p :: pre ++ (ds ++ (bedsLiteral ++ post))) = none := by
      cases hq : bedsAt (p :: pre ++ (ds ++ (bedsLiteral ++ post))) with
      | none => rfl
      | some ds1 =>
        obtain ⟨post1, h1⟩ := (bedsAt_some_iff _ _).mp hq
        have := hmin [] ds1 post1 h1
        simp at this
    rw [List.cons_append] at hat ⊢
    rw [bedsMatch_cons, hat]
    apply ih
    · exact ⟨rfl, hne, hd⟩
    · intro pre1 ds1 post1 h1
      have := hmin (p :: pre1) ds1 post1
        ⟨by rw [List.cons_append, List.cons_append, ← h1.1], h1.2.1, h1.2.2⟩
      simpa using this

/-- Without an occurrence there is no match. -/
theorem bedsMatch_none (text : List Char)
    (hno : ∀ pre ds post, ¬ IsBedsOccurrence text pre ds post) : bedsMatch text = none := by
  induction text with
  | nil => rfl
  | cons c cs ih =>
    have hat : bedsAt (c :: cs) = none := by
      cases hq : bedsAt (c :: cs) with
      | none => rfl
      | some ds1 =>
        obtain ⟨post1, h1⟩ := (bedsAt_some_iff _ _).mp hq
        exact absurd h1 (hno _ _ _)
    simp only [bedsMatch, hat]
    apply ih
    intro pre ds post h
    exact hno (c :: pre) ds post ⟨by rw [h.1]; rfl, h.2.1, h.2.2⟩

/-- A match is a non-empty string of digits. -/
theorem bedsMatch_digits (text ds : List Char) (h : bedsMatch text = some ds) :
    ds ≠ [] ∧ ∀ c ∈ ds, isDigit c = true := by
  induction text with
  | nil => simp [bedsMatch] at h
  | cons c cs ih =>
    simp only [bedsMatch] at h
    cases hq : bedsAt (c :: cs) with
    | none =>
      rw [hq] at h
      exact ih h
    | some ds1 =>
      rw [hq] at h
      cases h
      obtain ⟨post1, h1⟩ := (bedsAt_some_iff _ _).mp hq
      exact ⟨h1.2.1, h1.2.2⟩

/-- The match of the pattern is the first occurrence, and there is no match
exactly when there is no occurrence. -/
theorem bedsMatch_spec (text : List Char) :
    match bedsMatch text with
    | some ds => ∃ pre post, IsFirstBedsOccurrence text pre ds post
    | none => ∀ pre ds post, ¬ IsBedsOccurrence text pre ds post := by
  induction text with
  | nil =>
    show ∀ pre ds post, ¬ IsBedsOccurrence [] pre ds post
    intro pre ds post h
    obtain ⟨h1, h2, _⟩ := h
    cases ds with
    | nil => exact h2 rfl
    | cons d ds =>
      have := congrArg List.length h1
      simp [bedsLiteral] at this
      omega
  | cons c cs ih =>
    rw [bedsMatch_cons]
    cases hq : bedsAt (c :: cs) with
    | some ds =>
      obtain ⟨post, hocc⟩ := (bedsAt_some_iff _ _).mp hq
      exact ⟨[], post, hocc, fun _ _ _ _ => Nat.zero_le _⟩
    | none =>
      have hnone : ∀ ds post, ¬ IsBedsOccurrence (c :: cs) [] ds post := by
        intro ds post h
        have := (bedsAt_some_iff (c :: cs) ds).mpr ⟨post, h⟩
        rw [hq] at this
        cases this
      have htail : ∀ pre ds post, IsBedsOccurrence (c :: cs) pre ds post → pre ≠ [] →
          ∃ pre1, pre = c :: pre1 ∧ IsBedsOccurrence cs pre1 ds post := by
        intro pre ds post h hne
        cases pre with
        | nil => exact absurd rfl hne
        | cons p pre1 =>
          obtain ⟨h1, h2, h3⟩ := h
          rw [List.cons_append] at h1
          injection h1 with hc hcs
          exact ⟨pre1, by rw [hc], hcs, h2, h3⟩
      cases hm : bedsMatch cs with
      | some ds =>
        rw [hm] at ih
        obtain ⟨pre, post, hocc, hmin⟩ := ih
        refine ⟨c :: pre, post, ⟨by rw [hocc.1]; rfl, hocc.2.1, hocc.2.2⟩, ?_⟩
        intro pre1 ds1 post1 h1
        by_cases hp : pre1 = []
        · subst hp
          exact absurd h1 (hnone ds1 post1)
        · obtain ⟨pre2, hp2, h2⟩ := htail pre1 ds1 post1 h1 hp
          have := hmin pre2 ds1 post1 h2
          rw [hp2]
          simp only [List.length_cons]
          omega
      | none =>
        rw [hm] at ih
        intro pre ds post h
        by_cases hp : pre = []
        · subst hp
          exact hnone ds post h
        · obtain ⟨pre2, _, h2⟩ := htail pre ds post h hp
          exact ih pre2 ds post h2

/-- The bed count `matchesFilter` computes is the double nearest to the number
of the match, and 0 without a match. -/
theorem bedCount_eq (metaText : String) :
    bedCount metaText =
      toJsNum false (match bedsMatch metaText.toList with
            | some ds => digitsValue ds
            | none => 0) := by
  unfold bedCount
  cases hm : bedsMatch metaText.toList with
  | none => rfl
  | some ds =>
    obtain ⟨hne, hd⟩ := bedsMatch_digits _ _ hm
    have hemp : ¬ ((String.mk ds).toList.isEmpty = true) := by
      cases ds with
      | nil => exact absurd rfl hne
      | cons _ _ => simp
    simp only [Option.map, orElseStr]
    rw [if_neg hemp]
    exact parseInt_of_digits (String.mk ds) hne hd

/-- Every card has a bed count. -/
theorem isBedCount_exists (card : Card) : ∃ n, IsBedCount card n := by
  have h := bedsMatch_spec (orElseStr card.metaText "").toList
  cases hm : bedsMatch (orElseStr card.metaText "").toList with
  | some ds =>
    rw [hm] at h
    obtain ⟨pre, post, hf⟩ := h
    exact ⟨digitsValue ds, Or.inl ⟨pre, ds, post, hf, rfl⟩⟩
  | none =>
    rw [hm] at h
    exact ⟨0, Or.inr ⟨h, rfl⟩⟩

/-- The number `matchesFilter` computes from the meta text is the double
nearest to the bed count. -/
theorem bedCount_of_isBedCount (card : Card) (n : Nat) (h : IsBedCount card n) :
    bedCount (orElseStr card.metaText "") = toJsNum false n := by
  rw [bedCount_eq]
  rcases h with ⟨pre, ds, post, hf, hn⟩ | ⟨hno, hn⟩
  · rw [bedsMatch_first _ pre ds post hf.1 hf.2, hn]
  · rw [bedsMatch_none _ hno, hn]

/-- The number `matchesFilter` computes from the price text is the double
nearest to the price. -/
theorem cardPrice_eq (card : Card) : cardPrice card = toJsNum false (priceOf card) := by
  unfold cardPrice priceOf
  cases hp : card.priceText with
  | none => rfl
  | some t =>
    simp only [Option.map, orElseStr]
    by_cases hemp : (String.mk (t.toList.filter isDigit)).toList.isEmpty = true
    · rw [if_pos hemp]
      have : t.toList.filter isDigit = [] := by
        have h1 : (t.toList.filter isDigit).isEmpty = true := hemp
        exact List.isEmpty_iff.mp h1
      rw [this]
      rfl
    · rw [if_neg hemp]
      apply parseInt_of_digits
      · intro hnil
        apply hemp
        rw [hnil]; rfl
      · intro c hc
        have hc1 : c ∈ List.filter isDigit t.toList := hc
        exact (List.mem_filter.mp hc1).2

theorem truthy_some_of_ne (s : String) (hne : s.toList ≠ []) : truthy (some s) = true := by
  show (!s.toList.isEmpty) = true
  cases h : s.toList with
  | nil => exact absurd h hne
  | cons _ _ => rfl

theorem truthy_eq_true_iff (o : Option String) :
    truthy o = true ↔ ∃ v, o = some v ∧ v.toList ≠ [] := by
  cases o with
  | none => simp [truthy]
  | some s =>
    constructor
    · intro h
      refine ⟨s, rfl, ?_⟩
      intro hnil
      have : truthy (some s) = false := by
        show (!s.toList.isEmpty) = false
        rw [hnil]; rfl
      rw [this] at h
      cases h
    · rintro ⟨v, hv, hne⟩
      cases hv
      exact truthy_some_of_ne s hne

/-! ## Filter engine: properties -/

/-- Six guarded early returns amount to the conjunction of the negated guards. -/
theorem guards_eq_and (a b c d e f : Bool) :
    (if a = true then false else if b = true then false else if c = true then false
      else if d = true then false else if e = true then false else if f = true then false
      else true) = (!a && !b && !c && !d && !e && !f) := by
  cases a <;> cases b <;> cases c <;> cases d <;> cases e <;> cases f <;> rfl

theorem matchesFilter_eq (toLowerCase : String → String) (card : Card) (f : Filters) :
    matchesFilter toLowerCase card f =
      (!locationFails toLowerCase card f.location && !typeFails toLowerCase card f.type &&
       !bedroomsFails card f.bedrooms && !amenitiesFails toLowerCase card f.amenities &&
       !minPriceFails card f.minPrice && !maxPriceFails card f.maxPrice) :=
  guards_eq_and _ _ _ _ _ _

@[simp] theorem locationFails_none (toLowerCase : String → String) (card : Card) :
    locationFails toLowerCase card none = false := rfl
@[simp] theorem typeFails_none (toLowerCase : String → String) (card : Card) :
    typeFails toLowerCase card none = false := rfl
@[simp] theorem bedroomsFails_none (card : Card) : bedroomsFails card none = false := rfl
@[simp] theorem amenitiesFails_none (toLowerCase : String → String) (card : Card) :
    amenitiesFails toLowerCase card none = false := rfl
@[simp] theorem minPriceFails_none (card : Card) : minPriceFails card none = false := rfl
@[simp] theorem maxPriceFails_none (card : Card) : maxPriceFails card none = false := rfl

theorem matchesFilter_empty (toLowerCase : String → String) (card : Card) :
    matchesFilter toLowerCase card {} = true := by
  rw [matchesFilter_eq]; simp

/-- `includes` finds exactly the texts that occur. -/
theorem includesChars_iff (sub cs : List Char) :
    includesChars sub cs = true ↔ IsSubstring sub cs := by
  induction cs with
  | nil =>
    simp only [includesChars, List.isEmpty_iff, IsSubstring]
    constructor
    · intro h; exact ⟨[], [], by rw [h]; rfl⟩
    · rintro ⟨pre, post, h⟩
      have h1 := congrArg List.length h
      simp only [List.length_nil, List.length_append] at h1
      exact List.length_eq_zero.mp (by omega)
  | cons c cs ih =>
    simp only [includesChars, Bool.or_eq_true, ih, IsSubstring]
    constructor
    · rintro (h | ⟨pre, post, h⟩)
      · rw [ List.isPrefixOf_iff_prefix] at h
        obtain ⟨t, ht⟩ := h
        exact ⟨[], t, by rw [List.nil_append, ht]⟩
      · exact ⟨c :: pre, post, by rw [h]; rfl⟩
    · rintro ⟨pre, post, h⟩
      cases pre with
      | nil =>
        left
        rw [ List.isPrefixOf_iff_prefix]
        exact ⟨post, by rw [h]; rfl⟩
      | cons p pre =>
        right
        rw [List.cons_append] at h
        injection h with _ h2
        exact ⟨pre, post, h2⟩

theorem includes_iff (s sub : String) :
    includes s sub = true ↔ IsSubstring sub.toList s.toList :=
  includesChars_iff _ _

/-- The lookup in the `details` object gives the detail value of the card. -/
theorem detailsLookup_of_isDetailValue (toLowerCase : String → String) (card : Card)
    (label text : String) (h : IsDetailValue card label text) :
    detailsLookup toLowerCase card.extraDetails label = some (toLowerCase text) := by
  obtain ⟨before, li, after, hitems, hl, ht, hafter⟩ := h
  unfold detailsLookup
  have hfind : card.extraDetails.reverse.find? (fun li => li.dataLabel == some label) = some li := by
    rw [List.find?_eq_some]
    refine ⟨by simp [hl], after.reverse, before.reverse, ?_, ?_⟩
    · rw [hitems]; simp
    · intro a ha
      have := hafter a (List.mem_reverse.mp ha)
      simp [this]
  rw [hfind, Option.map_some', ht]

theorem detailsLookup_some (toLowerCase : String → String) (card : Card) (label t : String)
    (h : detailsLookup toLowerCase card.extraDetails label = some t) :
    ∃ text, IsDetailValue card label text ∧ t = toLowerCase text := by
  unfold detailsLookup at h
  cases hf : card.extraDetails.reverse.find? (fun li => li.dataLabel == some label) with
  | none => rw [hf] at h; cases h
  | some li =>
    rw [hf, Option.map_some'] at h
    injection h with h
    rw [List.find?_eq_some] at hf
    obtain ⟨hp, as, bs, hrev, has⟩ := hf
    refine ⟨li.textContent, ⟨bs.reverse, li, as.reverse, ?_, ?_, rfl, ?_⟩, h.symm⟩
    · have := congrArg List.reverse hrev
      simpa using this
    · simpa using hp
    · intro x hx
      have := has x (List.mem_reverse.mp hx)
      simpa using this

theorem isDetailValue_unique (card : Card) (label t1 t2 : String)
    (h1 : IsDetailValue card label t1) (h2 : IsDetailValue card label t2) : t1 = t2 := by
  have a := detailsLookup_of_isDetailValue id card label t1 h1
  have b := detailsLookup_of_isDetailValue id card label t2 h2
  rw [a] at b
  injection b

theorem locationFails_iff (toLowerCase : String → String) (card : Card) (v : String)
    (hne : v.toList ≠ []) :
    locationFails toLowerCase card (some v) = false ↔ PassesLocation toLowerCase card v := by
  unfold locationFails detailIncludes PassesLocation
  rw [truthy_some_of_ne v hne, Bool.true_and, Option.getD_some]
  cases hl : detailsLookup toLowerCase card.extraDetails "Location" with
  | none =>
    simp only [Bool.not_false]
    constructor
    · intro h; cases h
    · rintro ⟨text, hd, _⟩
      rw [detailsLookup_of_isDetailValue toLowerCase card _ text hd] at hl
      cases hl
  | some t =>
    obtain ⟨text, hd, ht⟩ := detailsLookup_some toLowerCase card _ t hl
    simp only [Bool.not_eq_false', includes_iff]
    constructor
    · intro h
      exact ⟨text, hd, by rw [← ht]; exact h⟩
    · rintro ⟨text1, hd1, hs⟩
      rw [isDetailValue_unique card _ _ _ hd hd1] at ht
      rw [ht]; exact hs

theorem amenitiesFails_iff (toLowerCase : String → String) (card : Card) (v : String)
    (hne : v.toList ≠ []) :
    amenitiesFails toLowerCase card (some v) = false ↔ PassesAmenities toLowerCase card v := by
  unfold amenitiesFails detailIncludes PassesAmenities
  rw [truthy_some_of_ne v hne, Bool.true_and, Option.getD_some]
  cases hl : detailsLookup toLowerCase card.extraDetails "Amenities" with
  | none =>
    simp only [Bool.not_false]
    constructor
    · intro h; cases h
    · rintro ⟨text, hd, _⟩
      rw [detailsLookup_of_isDetailValue toLowerCase card _ text hd] at hl
      cases hl
  | some t =>
    obtain ⟨text, hd, ht⟩ := detailsLookup_some toLowerCase card _ t hl
    simp only [Bool.not_eq_false', includes_iff]
    constructor
    · intro h
      exact ⟨text, hd, by rw [← ht]; exact h⟩
    · rintro ⟨text1, hd1, hs⟩
      rw [isDetailValue_unique card _ _ _ hd hd1] at ht
      rw [ht]; exact hs

theorem typeFails_iff (toLowerCase : String → String) (card : Card) (v : String)
    (hne : v.toList ≠ []) :
    typeFails toLowerCase card (some v) = false ↔ PassesType toLowerCase card v := by
  unfold typeFails PassesType
  rw [truthy_some_of_ne v hne, Bool.true_and, Option.getD_some]
  cases hl : detailsLookup toLowerCase card.extraDetails "Type" with
  | none =>
    constructor
    · intro h; simp at h
    · rintro ⟨text, hd, _⟩
      rw [detailsLookup_of_isDetailValue toLowerCase card _ text hd] at hl
      cases hl
  | some t =>
    obtain ⟨text, hd, ht⟩ := detailsLookup_some toLowerCase card _ t hl
    constructor
    · intro h
      refine ⟨text, hd, ?_⟩
      rw [← ht]
      simpa using h
    · rintro ⟨text1, hd1, hs⟩
      rw [isDetailValue_unique card _ _ _ hd hd1] at ht
      rw [ht, hs]
      simp

theorem bedroomsFails_iff (card : Card) (v : String) (hne : v.toList ≠ []) :
    bedroomsFails card (some v) = false ↔ PassesBedrooms card v := by
  unfold bedroomsFails PassesBedrooms
  rw [truthy_some_of_ne v hne, Bool.true_and, Option.getD_some]
  constructor
  · intro h
    obtain ⟨n, hn⟩ := isBedCount_exists card
    rw [bedCount_of_isBedCount card n hn, jsLt_eq_false_iff _ _ (toJsNum_ne_nan n)] at h
    exact ⟨n, hn, h⟩
  · rintro ⟨n, hn, h⟩
    rw [bedCount_of_isBedCount card n hn, jsLt_eq_false_iff _ _ (toJsNum_ne_nan n)]
    exact h

theorem minPriceFails_iff (card : Card) (v : String) (hne : v.toList ≠ []) :
    minPriceFails card (some v) = false ↔ PassesMinPrice card v := by
  unfold minPriceFails PassesMinPrice
  rw [truthy_some_of_ne v hne, Bool.true_and, Option.getD_some, cardPrice_eq,
    jsLt_eq_false_iff _ _ (toJsNum_ne_nan _)]

theorem jsGt_eq_false_iff (a b : JsNum) (ha : a ≠ .nan) :
    jsGt a b = false ↔ (b = .nan ∨ jsLe a b = true) := by
  cases a <;> cases b <;> simp [jsGt, jsLt, jsLe] at ha ⊢

theorem maxPriceFails_iff (card : Card) (v : String) (hne : v.toList ≠ []) :
    maxPriceFails card (some v) = false ↔ PassesMaxPrice card v := by
  unfold maxPriceFails PassesMaxPrice
  rw [truthy_some_of_ne v hne, Bool.true_and, Option.getD_some, cardPrice_eq,
    jsGt_eq_false_iff _ _ (toJsNum_ne_nan _)]

/-- A guard over an optional value fails to fire exactly when the value, if
present and not empty, passes. -/
theorem guard_false_iff (g : Option String → Bool) (P : String → Prop) (o : Option String)
    (hnone : g none = false) (hempty : ∀ v : String, v.toList = [] → g (some v) = false)
    (hsome : ∀ v : String, v.toList ≠ [] → (g (some v) = false ↔ P v)) :
    g o = false ↔ ∀ v, o = some v → v.toList ≠ [] → P v := by
  cases o with
  | none => simp [hnone]
  | some s =>
    by_cases hs : s.toList = []
    · simp only [hempty s hs, true_iff]
      intro v hv hne
      cases hv
      exact absurd hs hne
    · rw [hsome s hs]
      constructor
      · intro h v hv _
        cases hv
        exact h
      · intro h
        exact h s rfl hs

theorem truthy_some_of_nil (v : String) (h : v.toList = []) : truthy (some v) = false := by
  show (!v.toList.isEmpty) = false
  rw [h]; rfl

/-- The engine shows a card exactly when the card passes each criterion that
is present, taken on its own. -/
theorem matchesFilter_iff (toLowerCase : String → String) (card : Card) (filters : Filters) :
    matchesFilter toLowerCase card filters = true ↔
      PassesEachPresent toLowerCase card filters := by
  rw [matchesFilter_eq]
  simp only [Bool.and_eq_true, Bool.not_eq_true', and_assoc]
  unfold PassesEachPresent
  rw [guard_false_iff (locationFails toLowerCase card) (PassesLocation toLowerCase card) _ rfl
      (fun v h => by unfold locationFails; rw [truthy_some_of_nil v h]; rfl)
      (locationFails_iff toLowerCase card),
    guard_false_iff (typeFails toLowerCase card) (PassesType toLowerCase card) _ rfl
      (fun v h => by unfold typeFails; rw [truthy_some_of_nil v h]; rfl)
      (typeFails_iff toLowerCase card),
    guard_false_iff (bedroomsFails card) (PassesBedrooms card) _ rfl
      (fun v h => by unfold bedroomsFails; rw [truthy_some_of_nil v h]; rfl)
      (bedroomsFails_iff card),
    guard_false_iff (amenitiesFails toLowerCase card) (PassesAmenities toLowerCase card) _ rfl
      (fun v h => by unfold amenitiesFails; rw [truthy_some_of_nil v h]; rfl)
      (amenitiesFails_iff toLowerCase card),
    guard_false_iff (minPriceFails card) (PassesMinPrice card) _ rfl
      (fun v h => by unfold minPriceFails; rw [truthy_some_of_nil v h]; rfl)
      (minPriceFails_iff card),
    guard_false_iff (maxPriceFails card) (PassesMaxPrice card) _ rfl
      (fun v h => by unfold maxPriceFails; rw [truthy_some_of_nil v h]; rfl)
      (maxPriceFails_iff card)]

theorem formValue_cons (e : String × String) (rest : List (String × String)) (key : String) :
    formValue (e :: rest) key =
      (formValue rest key).or
        (if (e.1 == key && !e.2.toList.isEmpty) = true then some e.2 else none) := by
  unfold formValue
  rw [List.filter_cons]
  split_ifs with h
  · have : e :: List.filter (fun e => e.1 == key && !e.2.toList.isEmpty) rest =
        [e] ++ List.filter (fun e => e.1 == key && !e.2.toList.isEmpty) rest := rfl
    rw [this, List.getLast?_append]
    cases (List.filter (fun e => e.1 == key && !e.2.toList.isEmpty) rest).getLast? <;> rfl
  · cases (List.filter (fun e => e.1 == key && !e.2.toList.isEmpty) rest).getLast? <;> rfl

theorem foldl_setFilter (formData : List (String × String)) (init : Filters) :
    formData.foldl setFilter init =
      { location := (formValue formData "location").or init.location
        type := (formValue formData "type").or init.type
        bedrooms := (formValue formData "bedrooms").or init.bedrooms
        amenities := (formValue formData "amenities").or init.amenities
        minPrice := (formValue formData "minPrice").or init.minPrice
        maxPrice := (formValue formData "maxPrice").or init.maxPrice } := by
  induction formData generalizing init with
  | nil => cases init; rfl
  | cons e rest ih =>
    obtain ⟨k, v⟩ := e
    rw [List.foldl_cons, ih]
    simp only [formValue_cons]
    by_cases hv : v.data = []
    · have hs : setFilter init (k, v) = init := by simp [setFilter, hv]
      rw [hs]
      simp [hv]
    · have hv1 : ¬ v.data = [] := hv
      by_cases h1 : k = "location"
      · have hs : setFilter init (k, v) = { init with location := some v } := by
          simp [setFilter, hv, h1]
        rw [hs, h1]; simp [hv1, Option.or_assoc]
      · by_cases h2 : k = "type"
        · have hs : setFilter init (k, v) = { init with type := some v } := by
            simp [setFilter, hv, h2]
          rw [hs, h2]; simp [hv1, Option.or_assoc]
        · by_cases h3 : k = "bedrooms"
          · have hs : setFilter init (k, v) = { init with bedrooms := some v } := by
              simp [setFilter, hv, h3]
            rw [hs, h3]; simp [hv1, Option.or_assoc]
          · by_cases h4 : k = "amenities"
            · have hs : setFilter init (k, v) = { init with amenities := some v } := by
                simp [setFilter, hv, h4]
              rw [hs, h4]; simp [hv1, Option.or_assoc]
            · by_cases h5 : k = "minPrice"
              · have hs : setFilter init (k, v) = { init with minPrice := some v } := by
                  simp [setFilter, hv, h5]
                rw [hs, h5]; simp [hv1, Option.or_assoc]
              · by_cases h6 : k = "maxPrice"
                · have hs : setFilter init (k, v) = { init with maxPrice := some v } := by
                    simp [setFilter, hv, h6]
                  rw [hs, h6]; simp [hv1, Option.or_assoc]
                · have hs : setFilter init (k, v) = init := by
                    simp [setFilter, hv, h1, h2, h3, h4, h5, h6]
                  rw [hs]
                  simp [h1, h2, h3, h4, h5, h6]

/-- The `filters` object of a form holds, under each of the six names, the
value of the field of that name. -/
theorem foldl_setFilter_empty (formData : List (String × String)) :
    formData.foldl setFilter {} = formFilters formData := by
  rw [foldl_setFilter]
  simp [formFilters]

/-- C6. For every card and every criteria mapping, `matchesFilter` is true
exactly when the card passes each criterion that is present in the mapping,
taken on its own: `location` and `amenities` occur in the card's detail of
that name, `type` is the card's "Type" detail (all three letter case aside),
the bed count reaches `bedrooms`, the price lies within `minPrice` and
`maxPrice`.  A criterion that is absent asks for nothing, so the empty mapping
shows every card; and `filterProperties` shows each card of the page by the
criteria of the form's populated fields.  The card priced "$450,000" is
hidden by `minPrice = 500000` alone and visible with no criterion. -/
theorem matchesFilter_composition (toLowerCase : String → String) (card : Card)
    (filters : Filters) :
    (matchesFilter toLowerCase card filters = true ↔
      PassesEachPresent toLowerCase card filters) ∧
    matchesFilter toLowerCase card {} = true ∧
    (∀ (formData : List (String × String)) (allCards : List Card) (i : Nat) (c : Card),
      allCards[i]? = some c →
      ∃ shown, (filterProperties toLowerCase formData allCards)[i]? = some shown ∧
        (shown = true ↔ PassesEachPresent toLowerCase c (formFilters formData))) ∧
    matchesFilter toLowerCase card450 { minPrice := some "500000" } = false ∧
    matchesFilter toLowerCase card450 {} = true := by
  refine ⟨matchesFilter_iff toLowerCase card filters, matchesFilter_empty toLowerCase card, ?_,
    ?_, matchesFilter_empty toLowerCase card450⟩
  · intro formData allCards i c hc
    refine ⟨matchesFilter toLowerCase c (formFilters formData), ?_,
      matchesFilter_iff toLowerCase c (formFilters formData)⟩
    unfold filterProperties
    simp only [List.getElem?_map, hc, Option.map_some', foldl_setFilter_empty]
  · rw [matchesFilter_eq]
    have h : minPriceFails card450 (some "500000") = true := by decide
    simp [h]

theorem matchesFilter_bedrooms_only (toLowerCase : String → String) (card : Card)
    (v : Option String) :
    matchesFilter toLowerCase card { bedrooms := v } = !bedroomsFails card v := by
  rw [matchesFilter_eq]; simp

theorem jsLe_finite (x y : Int) : jsLe (.finite x) (.finite y) = decide (x ≤ y) := rfl

/-- C7, as the code has it. With `bedrooms` as the only criterion, given as a
non-empty string of decimal digits, a card is visible exactly when its bed
count is at least the requested number, as long as both are below 2^53
(9007199254740992), where a JavaScript number is exact; the bed count is
the number of the first "<N> Beds" in the meta text, and 0 when the meta text
has none.  From 2^53 on the two numbers are compared after each is rounded
to the nearest double.  The meta text "3 Beds • 2 Baths" is visible for
`bedrooms = 3` and hidden for `bedrooms = 4`. -/
theorem bedrooms_criterion (toLowerCase : String → String) (card : Card) (s : String)
    (hne : s.toList ≠ []) (hd : ∀ c ∈ s.toList, isDigit c = true) :
    (∃ n, IsBedCount card n) ∧
    (∀ n, IsBedCount card n → n < 9007199254740992 → digitsValue s.toList < 9007199254740992 →
      (matchesFilter toLowerCase card { bedrooms := some s } = true ↔
        digitsValue s.toList ≤ n)) ∧
    (∀ n, IsBedCount card n →
      (matchesFilter toLowerCase card { bedrooms := some s } = true ↔
        jsLe (toJsNum false (digitsValue s.toList)) (toJsNum false n) = true)) ∧
    matchesFilter toLowerCase { card with metaText := some "3 Beds • 2 Baths" }
      { bedrooms := some "3" } = true ∧
    matchesFilter toLowerCase { card with metaText := some "3 Beds • 2 Baths" }
      { bedrooms := some "4" } = false := by
  have hkey : ∀ n, IsBedCount card n →
      (matchesFilter toLowerCase card { bedrooms := some s } = true ↔
        jsLe (toJsNum false (digitsValue s.toList)) (toJsNum false n) = true) := by
    intro n hn
    rw [matchesFilter_bedrooms_only, Bool.not_eq_true', bedroomsFails,
      truthy_some_of_ne s hne, Bool.true_and, Option.getD_some,
      bedCount_of_isBedCount card n hn, parseInt_of_digits s hne hd,
      jsLt_eq_false_iff _ _ (toJsNum_ne_nan n)]
    constructor
    · rintro (h | h)
      · exact absurd h (toJsNum_ne_nan _)
      · exact h
    · intro h; exact Or.inr h
  refine ⟨isBedCount_exists card, ?_, hkey, ?_, ?_⟩
  · intro n hn hn53 hs53
    rw [hkey n hn, toJsNum_of_lt _ hn53, toJsNum_of_lt _ hs53, jsLe_finite]
    simp
  · rw [matchesFilter_bedrooms_only]
    show (!(truthy (some "3") &&
      jsLt (bedCount (orElseStr (some "3 Beds • 2 Baths") "")) (parseInt "3"))) = true
    decide
  · rw [matchesFilter_bedrooms_only]
    show (!(truthy (some "4") &&
      jsLt (bedCount (orElseStr (some "3 Beds • 2 Baths") "")) (parseInt "4"))) = false
    decide

/-- C7 at the card "3 Beds • 2 Baths" and the request "3". -/
theorem bedrooms_criterion_witness :
    "3".toList ≠ [] ∧ (∀ c ∈ "3".toList, isDigit c = true) ∧
    IsBedCount card450 3 ∧
    (matchesFilter asciiLowerCase card450 { bedrooms := some "3" } = true ↔
      digitsValue "3".toList ≤ 3) :=
  have hb : IsBedCount card450 3 :=
    Or.inl ⟨[], ['3'], " • 2 Baths".toList,
      ⟨⟨by decide, by decide, by decide⟩, fun _ _ _ _ => Nat.zero_le _⟩, by decide⟩
  ⟨by decide, by decide, hb,
    (bedrooms_criterion asciiLowerCase card450 "3" (by decide) (by decide)).2.1 3 hb
      (by decide) (by decide)⟩

/-- C7 as stated fails from 2^53 on: a card of 9007199254740992 bedrooms is
shown for the request 9007199254740993, which its bed count does not reach,
because `parseInt` rounds the request to the double 9007199254740992. -/
theorem bedrooms_criterion_counterexample :
    IsBedCount cardHuge 9007199254740992 ∧
    (∀ c ∈ "9007199254740993".toList, isDigit c = true) ∧
    digitsValue "9007199254740993".toList = 9007199254740993 ∧
    ¬ (9007199254740993 ≤ 9007199254740992) ∧
    matchesFilter asciiLowerCase cardHuge { bedrooms := some "9007199254740993" } = true :=
  ⟨Or.inl ⟨[], "9007199254740992".toList, [],
      ⟨⟨by decide, by decide, by decide⟩, fun _ _ _ _ => Nat.zero_le _⟩, by decide⟩,
    by decide, by decide, by decide, by decide⟩

theorem bedroomsFails_zero (card : Card) : bedroomsFails card (some "0") = false := by
  unfold bedroomsFails
  rw [bedCount_eq]
  have hp : parseInt ((some "0" : Option String).getD "") = .finite 0 := by decide
  rw [hp, jsLt_toJsNum_zero, Bool.and_false]

theorem minPriceFails_zero (card : Card) : minPriceFails card (some "0") = false := by
  unfold minPriceFails
  have hp : parseInt ((some "0" : Option String).getD "") = .finite 0 := by decide
  rw [hp, cardPrice_eq, jsLt_toJsNum_zero, Bool.and_false]

/-- C8, as the code has it. A non-empty `bedrooms`, `minPrice` or `maxPrice`
value that `parseInt` cannot read (it yields `NaN`) makes that criterion let
every card through, as if it were absent.  For `bedrooms` and `minPrice` that
is also the result for the value "0"; for `maxPrice` it is not, since "0"
hides every card whose price is above zero. -/
theorem malformed_numeric_filter (toLowerCase : String → String) (card : Card)
    (filters : Filters) (v : String) (hnan : parseInt v = .nan) :
    matchesFilter toLowerCase card { filters with bedrooms := some v } =
      matchesFilter toLowerCase card { filters with bedrooms := some "0" } ∧
    matchesFilter toLowerCase card { filters with minPrice := some v } =
      matchesFilter toLowerCase card { filters with minPrice := some "0" } ∧
    matchesFilter toLowerCase card { filters with bedrooms := some v } =
      matchesFilter toLowerCase card { filters with bedrooms := none } ∧
    matchesFilter toLowerCase card { filters with minPrice := some v } =
      matchesFilter toLowerCase card { filters with minPrice := none } ∧
    matchesFilter toLowerCase card { filters with maxPrice := some v } =
      matchesFilter toLowerCase card { filters with maxPrice := none } ∧
    matchesFilter toLowerCase card { filters with maxPrice := some "0" } =
      (matchesFilter toLowerCase card { filters with maxPrice := none } &&
        !jsGt (cardPrice card) (.finite 0)) := by
  have hb : bedroomsFails card (some v) = false := by
    unfold bedroomsFails
    show (truthy (some v) && jsLt _ (parseInt v)) = false
    rw [hnan, jsLt_nan_right, Bool.and_false]
  have hmin : minPriceFails card (some v) = false := by
    unfold minPriceFails
    show (truthy (some v) && jsLt _ (parseInt v)) = false
    rw [hnan, jsLt_nan_right, Bool.and_false]
  have hmax : maxPriceFails card (some v) = false := by
    unfold maxPriceFails jsGt
    show (truthy (some v) && jsLt (parseInt v) _) = false
    rw [hnan, jsLt_nan_left, Bool.and_false]
  have hmax0 : maxPriceFails card (some "0") = jsGt (cardPrice card) (.finite 0) := by
    unfold maxPriceFails
    have hp : parseInt ((some "0" : Option String).getD "") = .finite 0 := by decide
    rw [hp]
    rfl
  simp only [matchesFilter_eq, hb, hmin, hmax, hmax0, bedroomsFails_zero, minPriceFails_zero,
    bedroomsFails_none, minPriceFails_none, maxPriceFails_none, Bool.not_false, Bool.and_true,
    true_and, and_self]

/-- C8 at the card priced "$450,000" and the value "abc". -/
theorem malformed_numeric_filter_witness :
    "abc".toList ≠ [] ∧ parseInt "abc" = .nan ∧
    matchesFilter asciiLowerCase card450 { maxPrice := some "abc" } =
      matchesFilter asciiLowerCase card450 { maxPrice := none } :=
  ⟨by decide, by decide,
    (malformed_numeric_filter asciiLowerCase card450 {} "abc" (by decide)).2.2.2.2.1⟩

/-- C8 as stated fails for `maxPrice`: for the card priced "$450,000" the value
"abc" (which `parseInt` cannot read) leaves the card visible, the value "0"
hides it. -/
theorem malformed_maxPrice_counterexample :
    "abc".toList ≠ [] ∧ parseInt "abc" = .nan ∧
    matchesFilter asciiLowerCase card450 { maxPrice := some "abc" } = true ∧
    matchesFilter asciiLowerCase card450 { maxPrice := some "0" } = false := by
  decide

/-! ## Decimal text of a natural number -/

theorem digitChar_toNat (k : Nat) (hk : k < 10) : (Nat.digitChar k).toNat = 48 + k := by
  interval_cases k <;> rfl

theorem digitsValue_append_singleton (ds : List Char) (c : Char) :
    digitsValue (ds ++ [c]) = digitsValue ds * 10 + (c.toNat - 48) := by
  simp [digitsValue, List.foldl_append]

/-- What `Nat.toDigitsCore` adds in front of its accumulator: a non-empty run
of digits that denotes the number and has no leading zero. -/
theorem toDigitsCore_spec (fuel n : Nat) (acc : List Char) (h : n < fuel) :
    ∃ ds, Nat.toDigitsCore 10 fuel n acc = ds ++ acc ∧ ds ≠ [] ∧
      (∀ c ∈ ds, isDigit c = true) ∧ digitsValue ds = n ∧
      (n ≠ 0 → ∀ d t, ds = d :: t → d.toNat ≠ 48) := by
  induction fuel generalizing n acc with
  | zero => omega
  | succ fuel ih =>
    have hmod : n % 10 < 10 := Nat.mod_lt _ (by decide)
    have hd := digitChar_toNat (n % 10) hmod
    have hdig : isDigit (Nat.digitChar (n % 10)) = true := by
      simp only [isDigit, hd, Bool.and_eq_true, decide_eq_true_eq]; omega
    by_cases hq : n / 10 = 0
    · refine ⟨[Nat.digitChar (n % 10)], ?_, by simp, ?_, ?_, ?_⟩
      · simp [Nat.toDigitsCore, hq]
      · intro c hc
        rw [List.mem_singleton] at hc
        rw [hc]; exact hdig
      · simp only [digitsValue, List.foldl_cons, List.foldl_nil, hd]
        omega
      · intro hn d t hdt
        cases hdt
        rw [hd]; omega
    · have hlt : n / 10 < fuel := by omega
      obtain ⟨ds, hds, hne, hall, hval, hhead⟩ := ih (n / 10) (Nat.digitChar (n % 10) :: acc) hlt
      refine ⟨ds ++ [Nat.digitChar (n % 10)], ?_, by simp, ?_, ?_, ?_⟩
      · simp only [Nat.toDigitsCore, hq, if_false, hds, List.append_assoc, List.singleton_append]
      · intro c hc
        rw [List.mem_append, List.mem_singleton] at hc
        rcases hc with hc | hc
        · exact hall c hc
        · rw [hc]; exact hdig
      · rw [digitsValue_append_singleton, hval, hd]
        omega
      · intro _ d t hdt
        cases ds with
        | nil => exact absurd rfl hne
        | cons a as =>
          simp only [List.cons_append, List.cons.injEq] at hdt
          rw [← hdt.1]
          exact hhead hq a as rfl

/-- The decimal text of a natural number: non-empty, digits only, denoting the
number, without a leading zero unless the number is 0. -/
theorem toDigits_spec (n : Nat) :
    Nat.toDigits 10 n ≠ [] ∧ (∀ c ∈ Nat.toDigits 10 n, isDigit c = true) ∧
    digitsValue (Nat.toDigits 10 n) = n ∧
    (n ≠ 0 → ∀ d t, Nat.toDigits 10 n = d :: t → d.toNat ≠ 48) := by
  obtain ⟨ds, hds, hne, hall, hval, hhead⟩ := toDigitsCore_spec (n + 1) n [] (Nat.lt_succ_self n)
  have : Nat.toDigits 10 n = ds := by
    unfold Nat.toDigits
    rw [hds, List.append_nil]
  rw [this]
  exact ⟨hne, hall, hval, hhead⟩

/-- Reading back the decimal text of an index gives the double nearest to it. -/
theorem parseInt_toDigits (n : Nat) :
    parseInt (String.mk (Nat.toDigits 10 n)) = toJsNum false n := by
  obtain ⟨hne, hall, hval, _⟩ := toDigits_spec n
  have := parseInt_of_digits (String.mk (Nat.toDigits 10 n)) hne hall
  rw [this]
  show toJsNum false (digitsValue (Nat.toDigits 10 n)) = _
  rw [hval]

/-! ## Cart controller: properties -/

theorem sameIdentity_iff (propData p : SelectedProperty) :
    sameIdentity propData p = true ↔ identity p = identity propData := by
  simp [sameIdentity, identity, Prod.ext_iff]

theorem splice1_sublist {α : Type} (start : JsNum) (l : List α) : (splice1 start l).Sublist l := by
  unfold splice1
  exact List.eraseIdx_sublist _ _

theorem selectClick_unique (allPropertyCards : List Card) (idx : Nat) (st : CartState)
    (h : UniqueIdentity st.selectedProperties) :
    UniqueIdentity (selectClick allPropertyCards idx st).selectedProperties := by
  unfold selectClick
  cases hc : allPropertyCards[idx]? with
  | none => exact h
  | some card =>
    simp only
    cases hsel : st.selectedProperties.any (sameIdentity (getPropertyData allPropertyCards card)) with
    | false =>
      simp only [Bool.not_false, if_true]
      unfold UniqueIdentity
      rw [List.pairwise_append]
      refine ⟨h, List.pairwise_singleton _ _, ?_⟩
      intro a ha b hb
      rw [List.mem_singleton] at hb
      subst hb
      intro hab
      have hall := List.any_eq_false.mp hsel a ha
      exact hall ((sameIdentity_iff _ _).mpr hab)
    | true =>
      simp only [Bool.not_true, Bool.false_eq_true, if_false]
      exact List.Pairwise.sublist (List.filter_sublist _) h

theorem removeClick_unique (dataIdx : String) (st : CartState)
    (h : UniqueIdentity st.selectedProperties) :
    UniqueIdentity (removeClick dataIdx st).selectedProperties :=
  List.Pairwise.sublist (splice1_sublist _ _) h

theorem cartRun_unique (allPropertyCards : List Card) (actions : List CartAction) (st : CartState)
    (h : UniqueIdentity st.selectedProperties) :
    UniqueIdentity (cartRun allPropertyCards st actions).selectedProperties := by
  induction actions generalizing st with
  | nil => exact h
  | cons a rest ih =>
    unfold cartRun
    rw [List.foldl_cons]
    apply ih
    cases a with
    | select idx => exact selectClick_unique allPropertyCards idx st h
    | remove dataIdx => exact removeClick_unique dataIdx st h

/-- C1. If no two entries of the selection list share the same `(img, price)`
pair, that is still so after the click on any select button and after the
click on a remove button with any `data-idx`; the empty list has the
property, so every list reached from it by such clicks has it, whatever the
store does. -/
theorem selection_uniqueness (allPropertyCards : List Card) :
    UniqueIdentity [] ∧
    (∀ (st : CartState) (idx : Nat), UniqueIdentity st.selectedProperties →
      UniqueIdentity (selectClick allPropertyCards idx st).selectedProperties) ∧
    (∀ (st : CartState) (dataIdx : String), UniqueIdentity st.selectedProperties →
      UniqueIdentity (removeClick dataIdx st).selectedProperties) ∧
    (∀ (ls : LocalStorage) (actions : List CartAction),
      UniqueIdentity (cartRun allPropertyCards ⟨[], ls⟩ actions).selectedProperties) :=
  ⟨List.Pairwise.nil, fun st idx h => selectClick_unique allPropertyCards idx st h,
    fun st dataIdx h => removeClick_unique dataIdx st h,
    fun ls actions => cartRun_unique allPropertyCards actions ⟨[], ls⟩ List.Pairwise.nil⟩

/-- C1 on the sample page: a list with two distinct entries keeps the property
through a select click and a remove click. -/
theorem selection_uniqueness_witness :
    UniqueIdentity [getPropertyData sampleCards card450, getPropertyData sampleCards card900] ∧
    UniqueIdentity (selectClick sampleCards 0
      ⟨[getPropertyData sampleCards card450, getPropertyData sampleCards card900],
        emptyStorage⟩).selectedProperties ∧
    UniqueIdentity (removeClick "1"
      ⟨[getPropertyData sampleCards card450, getPropertyData sampleCards card900],
        emptyStorage⟩).selectedProperties :=
  ⟨by decide, (selection_uniqueness sampleCards).2.1 _ 0 (by decide),
    (selection_uniqueness sampleCards).2.2.1 _ "1" (by decide)⟩

theorem filter_not_sameIdentity_of_none (propData : SelectedProperty) (l : List SelectedProperty)
    (h : l.any (sameIdentity propData) = false) :
    l.filter (fun p => !sameIdentity propData p) = l := by
  rw [List.filter_eq_self]
  intro a ha
  have := List.any_eq_false.mp h a ha
  simpa using this

theorem any_sameIdentity_self_append (propData : SelectedProperty) (l : List SelectedProperty) :
    (l ++ [propData]).any (sameIdentity propData) = true := by
  rw [List.any_append, Bool.or_eq_true]
  right
  simp [sameIdentity]

theorem any_sameIdentity_filter (propData : SelectedProperty) (l : List SelectedProperty) :
    (l.filter (fun p => !sameIdentity propData p)).any (sameIdentity propData) = false := by
  rw [List.any_eq_false]
  intro a ha
  have := (List.mem_filter.mp ha).2
  simpa using this

/-- Under uniqueness the entries that match a record present in the list are
exactly one, carrying the identity of that record. -/
theorem filter_sameIdentity_keys (propData : SelectedProperty) (l : List SelectedProperty)
    (hu : UniqueIdentity l) (hany : l.any (sameIdentity propData) = true) :
    (l.filter (sameIdentity propData)).map identity = [identity propData] := by
  induction l with
  | nil => simp at hany
  | cons a t ih =>
    unfold UniqueIdentity at hu
    rw [List.pairwise_cons] at hu
    obtain ⟨hhead, htail⟩ := hu
    by_cases ha : sameIdentity propData a = true
    · have hnone : t.filter (sameIdentity propData) = [] := by
        rw [List.filter_eq_nil_iff]
        intro b hb hsb
        apply hhead b hb
        rw [(sameIdentity_iff _ _).mp ha, (sameIdentity_iff _ _).mp hsb]
      rw [List.filter_cons_of_pos ha, hnone]
      simp [(sameIdentity_iff _ _).mp ha]
    · rw [List.filter_cons_of_neg ha]
      apply ih htail
      rw [List.any_cons, Bool.or_eq_true] at hany
      rcases hany with h | h
      · exact absurd h ha
      · exact h

/-- C2, as the code has it. Two clicks in a row on the select button of a card
restore the selection list exactly when the card was not selected before.
When it was selected, the two clicks leave the other entries in their order
and put the freshly read record of the card at the end; if the list had no
two entries of one identity, it then has its original length and the same
identities, up to order. -/
theorem toggle_twice (allPropertyCards : List Card) (idx : Nat) (card : Card) (st : CartState)
    (hcard : allPropertyCards[idx]? = some card) :
    (st.selectedProperties.any (sameIdentity (getPropertyData allPropertyCards card)) = false →
      (selectClick allPropertyCards idx (selectClick allPropertyCards idx st)).selectedProperties
        = st.selectedProperties) ∧
    (st.selectedProperties.any (sameIdentity (getPropertyData allPropertyCards card)) = true →
      (selectClick allPropertyCards idx (selectClick allPropertyCards idx st)).selectedProperties
        = st.selectedProperties.filter
            (fun p => !sameIdentity (getPropertyData allPropertyCards card) p) ++
          [getPropertyData allPropertyCards card]) ∧
    (st.selectedProperties.any (sameIdentity (getPropertyData allPropertyCards card)) = true →
      UniqueIdentity st.selectedProperties →
      (selectClick allPropertyCards idx
          (selectClick allPropertyCards idx st)).selectedProperties.length
        = st.selectedProperties.length ∧
      ((selectClick allPropertyCards idx
          (selectClick allPropertyCards idx st)).selectedProperties.map identity).Perm
        (st.selectedProperties.map identity)) := by
  have hoff : st.selectedProperties.any (sameIdentity (getPropertyData allPropertyCards card)) = false →
      (selectClick allPropertyCards idx (selectClick allPropertyCards idx st)).selectedProperties
        = st.selectedProperties := by
    intro h
    simp only [selectClick, hcard, h, Bool.not_false, if_true, any_sameIdentity_self_append,
      Bool.not_true, Bool.false_eq_true, if_false]
    rw [List.filter_append, filter_not_sameIdentity_of_none _ _ h]
    simp [sameIdentity]
  have hon : st.selectedProperties.any (sameIdentity (getPropertyData allPropertyCards card)) = true →
      (selectClick allPropertyCards idx (selectClick allPropertyCards idx st)).selectedProperties
        = st.selectedProperties.filter
            (fun p => !sameIdentity (getPropertyData allPropertyCards card) p) ++
          [getPropertyData allPropertyCards card] := by
    intro h
    simp only [selectClick, hcard, h, Bool.not_true, Bool.false_eq_true, if_false,
      any_sameIdentity_filter, Bool.not_false, if_true]
  refine ⟨hoff, hon, ?_⟩
  intro h hu
  rw [hon h]
  have hkeys := filter_sameIdentity_keys _ _ hu h
  have hperm : ((st.selectedProperties.filter
        (fun p => !sameIdentity (getPropertyData allPropertyCards card) p) ++
        [getPropertyData allPropertyCards card]).map identity).Perm
      (st.selectedProperties.map identity) := by
    rw [List.map_append, List.map_singleton, ← hkeys, ← List.map_append]
    apply List.Perm.map
    exact (List.perm_append_comm).trans (List.filter_append_perm _ _)
  exact ⟨by simpa using hperm.length_eq, hperm⟩

/-- C2 on the sample page, for a card that is not selected and cards[0]. -/
theorem toggle_twice_witness :
    sampleCards[0]? = some card450 ∧
    (selectClick sampleCards 0 (selectClick sampleCards 0
        ⟨[getPropertyData sampleCards card900], emptyStorage⟩)).selectedProperties
      = [getPropertyData sampleCards card900] :=
  ⟨rfl, (toggle_twice sampleCards 0 card450 ⟨[getPropertyData sampleCards card900], emptyStorage⟩
    rfl).1 (by decide)⟩

/-- C2 as stated fails when the card is already selected and is not the last
entry: two clicks on the select button of the first card turn the list
`[first, second]` into `[second, first]`. -/
theorem toggle_twice_counterexample :
    (selectClick sampleCards 0 (selectClick sampleCards 0
        ⟨[getPropertyData sampleCards card450, getPropertyData sampleCards card900],
          emptyStorage⟩)).selectedProperties
      = [getPropertyData sampleCards card900, getPropertyData sampleCards card450] ∧
    [getPropertyData sampleCards card900, getPropertyData sampleCards card450] ≠
      [getPropertyData sampleCards card450, getPropertyData sampleCards card900] := by
  decide

/-! ## The cart panel: what the page reads from the text it is given -/

theorem scanHtml_eq_run (st : HtmlState) (cs : List Char) :
    scanHtml st cs = (runHtml st cs).2 := by
  induction cs generalizing st with
  | nil => rfl
  | cons c rest ih => simp only [scanHtml, runHtml, ih]

theorem runHtml_append (st : HtmlState) (a b : List Char) :
    runHtml st (a ++ b) =
      ((runHtml (runHtml st a).1 b).1, (runHtml st a).2 ++ (runHtml (runHtml st a).1 b).2) := by
  induction a generalizing st with
  | nil => simp [runHtml]
  | cons c rest ih =>
    rw [List.cons_append]
    simp only [runHtml]
    rw [ih]
    simp only [List.append_assoc]

/-- Text without `<` leaves the tokenizer in the data state and gives no node. -/
theorem runHtml_data_text (t : List Char) (h : ∀ c ∈ t, c.toNat ≠ 60) :
    runHtml .data t = (.data, []) := by
  induction t with
  | nil => rfl
  | cons c rest ih =>
    have hc : (c.toNat == 60) = false := by simpa using h c (List.mem_cons_self _ _)
    simp only [runHtml, htmlStep, hc, Bool.false_eq_true, if_false,
      ih (fun x hx => h x (List.mem_cons_of_mem _ hx)), List.append_nil]

/-- Text without `"` stays inside a double-quoted attribute value. -/
theorem runHtml_dq_text (tg : TagAcc) (n v t : List Char) (h : ∀ c ∈ t, c.toNat ≠ 34) :
    runHtml (.attrValueDQ tg n v) t = (.attrValueDQ tg n (v ++ t), []) := by
  induction t generalizing v with
  | nil => simp [runHtml]
  | cons c rest ih =>
    have hc : (c.toNat == 34) = false := by simpa using h c (List.mem_cons_self _ _)
    simp only [runHtml, htmlStep, hc, Bool.false_eq_true, if_false,
      ih _ (fun x hx => h x (List.mem_cons_of_mem _ hx)), List.append_nil, List.nil_append,
      List.append_assoc, List.singleton_append]

theorem run_cardOpen :
    runHtml .data "\n        <div class=\"cart-card\">\n          <img src=\"".toList =
      (.attrValueDQ ⟨false, ['i', 'm', 'g'], none, none⟩ ['s', 'r', 'c'] [], [.cartCard]) := by
  decide

set_option maxRecDepth 100000 in
theorem run_afterImg (v : List Char) :
    runHtml (.attrValueDQ ⟨false, ['i', 'm', 'g'], none, none⟩ ['s', 'r', 'c'] v)
      "\" style=\"width:100%;border-radius:1rem;margin-bottom:1rem;max-width:200px;\" />\n          <h3>".toList =
    (.data, []) := by
  rfl

theorem run_afterPrice :
    runHtml .data "</h3>\n          <div class=\"meta\">".toList = (.data, []) := by
  decide

theorem run_afterMeta :
    runHtml .data "</div>\n          <div class=\"badges\">".toList = (.data, []) := by
  decide

theorem run_afterBadges :
    runHtml .data "</div>\n          <ul class=\"modal-details-list\">\n            ".toList =
      (.data, []) := by
  decide

theorem run_buttonOpen :
    runHtml .data
      "\n          </ul>\n          <button class=\"remove-cart-btn\" data-idx=\"".toList =
      (.attrValueDQ ⟨false, ['b', 'u', 't', 't', 'o', 'n'],
          some ['r', 'e', 'm', 'o', 'v', 'e', '-', 'c', 'a', 'r', 't', '-', 'b', 't', 'n'], none⟩
        ['d', 'a', 't', 'a', '-', 'i', 'd', 'x'] [], []) := by
  decide

set_option maxRecDepth 100000 in
theorem run_buttonClose (v : List Char) :
    runHtml (.attrValueDQ ⟨false, ['b', 'u', 't', 't', 'o', 'n'],
          some ['r', 'e', 'm', 'o', 'v', 'e', '-', 'c', 'a', 'r', 't', '-', 'b', 't', 'n'], none⟩
        ['d', 'a', 't', 'a', '-', 'i', 'd', 'x'] v)
      "\">Remove</button>\n        </div>\n      ".toList =
    (.data, [.removeBtn (some (String.mk v))]) := by
  rfl

theorem run_detailOpen :
    runHtml .data "<li><span class='modal-details-label'>".toList = (.data, []) := by
  decide

theorem run_detailMiddle :
    runHtml .data ":</span> <span class='modal-details-value'>".toList = (.data, []) := by
  decide

theorem run_detailClose : runHtml .data "</span></li>".toList = (.data, []) := by
  decide

/-- An entry of `details` whose texts hold no `<` gives no cart node. -/
theorem run_detailHtml (d : Detail) (hl : NoMarkup (d.label.getD "null")) (hv : NoMarkup d.value) :
    runHtml .data (detailHtml d) = (.data, []) := by
  unfold detailHtml
  rw [runHtml_append, run_detailOpen, runHtml_append, runHtml_data_text _ hl, runHtml_append,
    run_detailMiddle, runHtml_append, runHtml_data_text _ hv, run_detailClose]
  rfl

theorem run_detailsHtml (ds : List Detail)
    (h : ∀ d ∈ ds, NoMarkup (d.label.getD "null") ∧ NoMarkup d.value) :
    runHtml .data (detailsHtml ds) = (.data, []) := by
  induction ds with
  | nil => rfl
  | cons d rest ih =>
    have hd := h d (List.mem_cons_self _ _)
    rw [detailsHtml, runHtml_append, run_detailHtml d hd.1 hd.2,
      ih (fun x hx => h x (List.mem_cons_of_mem _ hx))]
    rfl

theorem toDigits_noQuote (idx : Nat) : ∀ c ∈ Nat.toDigits 10 idx, c.toNat ≠ 34 := by
  intro c hc
  have := (toDigits_spec idx).2.1 c hc
  simp only [isDigit, Bool.and_eq_true, decide_eq_true_eq] at this
  omega

/-- The text of a cart card whose record brings no markup gives the card and
its remove button, the button carrying the index written. -/
theorem run_cartCardHtml (p : SelectedProperty) (idx : Nat) (h : MarkupFree p) :
    runHtml .data (cartCardHtml p idx) =
      (.data, [.cartCard, .removeBtn (some (indexText idx))]) := by
  obtain ⟨himg, hprice, hmeta, hbadges, hdetails⟩ := h
  unfold cartCardHtml
  rw [runHtml_append, run_cardOpen, runHtml_append, runHtml_dq_text _ _ _ _ himg,
    runHtml_append, run_afterImg, runHtml_append, runHtml_data_text _ hprice,
    runHtml_append, run_afterPrice, runHtml_append, runHtml_data_text _ hmeta,
    runHtml_append, run_afterMeta, runHtml_append, runHtml_data_text _ hbadges,
    runHtml_append, run_afterBadges, runHtml_append, run_detailsHtml _ hdetails,
    runHtml_append, run_buttonOpen, runHtml_append,
    runHtml_dq_text _ _ _ _ (toDigits_noQuote idx), run_buttonClose]
  rfl

/-- The text of the cart panel for records that bring no markup gives, for each
record in order, its card and its remove button carrying its position. -/
theorem run_cartHtml (sel : List SelectedProperty) (start : Nat)
    (h : ∀ p ∈ sel, MarkupFree p) :
    runHtml .data (cartHtml start sel) = (.data, cartNodesOf start sel.length) := by
  induction sel generalizing start with
  | nil => rfl
  | cons p rest ih =>
    rw [cartHtml, runHtml_append, run_cartCardHtml p start (h p (List.mem_cons_self _ _)),
      ih (start + 1) (fun x hx => h x (List.mem_cons_of_mem _ hx))]
    rfl

theorem removeCartBtns_cartNodesOf (start n : Nat) :
    removeCartBtns (cartNodesOf start n) =
      (List.range n).map (fun j => some (indexText (start + j))) := by
  induction n generalizing start with
  | zero => rfl
  | succ n ih =>
    rw [List.range_succ_eq_map, List.map_cons, List.map_map]
    simp only [cartNodesOf, removeCartBtns, ih, Nat.add_zero, List.cons.injEq, true_and]
    apply List.map_congr_left
    intro j _
    simp only [Function.comp_apply]
    rw [Nat.add_assoc, Nat.add_comm 1 j]

theorem splice1_of_lt {α : Type} (l : List α) (i : Nat) (hi : i < l.length) :
    splice1 (.finite (i : Int)) l = l.eraseIdx i := by
  unfold splice1
  have h1 : ¬ ((i : Int) < 0) := by omega
  have h2 : min (i : Int) (l.length : Int) = i := by omega
  simp only [h1, if_false, h2, Int.toNat_ofNat]

/-- What `updateCart` leaves for records that bring no markup: a card and a
remove button per record, each button carrying the position of its record. -/
theorem updateCart_nodes (sel : List SelectedProperty) (allPropertyCards : List Card)
    (selectBtns : List SelectBtn) (h : ∀ p ∈ sel, MarkupFree p) :
    scanHtml .data (updateCart sel allPropertyCards selectBtns).innerHTML.toList =
      cartNodesOf 0 sel.length ∧
    (updateCart sel allPropertyCards selectBtns).removeBtns =
      (List.range sel.length).map (fun j => some (indexText j)) := by
  unfold updateCart
  split_ifs with h0
  · refine ⟨?_, ?_⟩
    · show scanHtml .data "<p>No properties selected yet.</p>".toList = cartNodesOf 0 sel.length
      rw [h0]
      decide
    · show ([] : List (Option String)) = _
      rw [h0]
      rfl
  · have hrun := run_cartHtml sel 0 h
    have hscan : scanHtml .data (cartHtml 0 sel) = cartNodesOf 0 sel.length := by
      rw [scanHtml_eq_run, hrun]
    refine ⟨hscan, ?_⟩
    show removeCartBtns (scanHtml .data (cartHtml 0 sel)) = _
    rw [hscan, removeCartBtns_cartNodesOf]
    simp

/-- C9, as the code has it. On a page that has the cart elements, for a
selection list (of fewer than 2^32 records, as every JavaScript array) whose
records bring no markup into the panel (no `"` in the image address, no `<`
in the other texts): the panel holds one card and one
remove button per record, the button of position `j` carrying `j`; the click
on the button of position `i` leaves the list without its `i`-th record, the
other records unchanged and in order; and the render that follows again
gives each remaining record a remove button that carries the record's
position in the new list, which `parseInt` reads back as that position. -/
theorem remove_by_displayed_index (st : CartState) (allPropertyCards : List Card)
    (selectBtns : List SelectBtn) (i : Nat) (hi : i < st.selectedProperties.length)
    (hlen : st.selectedProperties.length < 4294967296)
    (hfree : ∀ p ∈ st.selectedProperties, MarkupFree p) :
    scanHtml .data (updateCart st.selectedProperties allPropertyCards
        selectBtns).innerHTML.toList = cartNodesOf 0 st.selectedProperties.length ∧
    (updateCart st.selectedProperties allPropertyCards selectBtns).removeBtns =
      (List.range st.selectedProperties.length).map (fun j => some (indexText j)) ∧
    (removeClick (indexText i) st).selectedProperties =
      st.selectedProperties.take i ++ st.selectedProperties.drop (i + 1) ∧
    (removeClick (indexText i) st).selectedProperties.length + 1 =
      st.selectedProperties.length ∧
    scanHtml .data (updateCart (removeClick (indexText i) st).selectedProperties allPropertyCards
        selectBtns).innerHTML.toList =
      cartNodesOf 0 (st.selectedProperties.length - 1) ∧
    (updateCart (removeClick (indexText i) st).selectedProperties allPropertyCards
        selectBtns).removeBtns =
      (List.range (st.selectedProperties.length - 1)).map (fun j => some (indexText j)) ∧
    (∀ j : Nat, j < st.selectedProperties.length → parseInt (indexText j) = .finite (j : Int)) := by
  have hparse : ∀ j : Nat, j < st.selectedProperties.length →
      parseInt (indexText j) = .finite (j : Int) := by
    intro j hj
    rw [indexText, parseInt_toDigits, toJsNum_of_lt j (by omega)]
  have hrem : (removeClick (indexText i) st).selectedProperties =
      st.selectedProperties.eraseIdx i := by
    show splice1 (parseInt (indexText i)) st.selectedProperties = _
    rw [hparse i hi, splice1_of_lt _ _ hi]
  have hlen1 : (st.selectedProperties.eraseIdx i).length + 1 = st.selectedProperties.length := by
    rw [List.length_eraseIdx, if_pos hi]
    omega
  have hfree1 : ∀ p ∈ st.selectedProperties.eraseIdx i, MarkupFree p :=
    fun p hp => hfree p ((List.eraseIdx_sublist _ _).subset hp)
  have hnodes := updateCart_nodes st.selectedProperties allPropertyCards selectBtns hfree
  have hnodes1 := updateCart_nodes (st.selectedProperties.eraseIdx i) allPropertyCards
    selectBtns hfree1
  have hl : (st.selectedProperties.eraseIdx i).length = st.selectedProperties.length - 1 := by
    omega
  rw [hl] at hnodes1
  refine ⟨hnodes.1, hnodes.2, ?_, ?_, ?_, ?_, hparse⟩
  · rw [hrem, List.eraseIdx_eq_take_drop_succ]
  · rw [hrem]; exact hlen1
  · rw [hrem]; exact hnodes1.1
  · rw [hrem]; exact hnodes1.2

set_option maxRecDepth 100000 in
/-- C9 on the sample page: removing position 0 of a two-entry list. -/
theorem remove_by_displayed_index_witness :
    (0 : Nat) < [getPropertyData sampleCards card450, getPropertyData sampleCards card900].length ∧
    (removeClick (indexText 0)
      ⟨[getPropertyData sampleCards card450, getPropertyData sampleCards card900],
        emptyStorage⟩).selectedProperties = [getPropertyData sampleCards card900] ∧
    (updateCart [getPropertyData sampleCards card900] sampleCards []).removeBtns =
      [some (indexText 0)] :=
  have h := remove_by_displayed_index
      ⟨[getPropertyData sampleCards card450, getPropertyData sampleCards card900], emptyStorage⟩
      sampleCards [] 0 (by decide) (by decide)
      (by decide)
  ⟨by decide, h.2.2.1, h.2.2.2.2.2.1⟩

set_option maxRecDepth 100000 in
/-- C9 as stated fails for a record that brings markup: with the list
`[first, second]` where the meta text of `second` is `<textarea>`, the click
on the remove button of position 0 leaves `[second]`, and in the render that
follows the `<textarea>` swallows the rest of the card as its text: the
panel has the card of `second` and no remove button at all. -/
theorem remove_by_displayed_index_counterexample :
    (removeClick (indexText 0)
      ⟨[getPropertyData sampleCards card450, markupRecord], emptyStorage⟩).selectedProperties =
      [markupRecord] ∧
    scanHtml .data (updateCart [markupRecord] sampleCards []).innerHTML.toList = [.cartCard] ∧
    (updateCart [markupRecord] sampleCards []).removeBtns = [] := by
  decide

/-! ## `JSON.parse` reads back what `JSON.stringify` writes -/

theorem char_eq_ofNat {c : Char} {k : Nat} (h : c.toNat = k) : Char.ofNat k = c := by
  rw [← h, Char.ofNat_toNat]

theorem digitVal16_digitChar (k : Nat) (hk : k < 16) : digitVal 16 (Nat.digitChar k) = some k := by
  interval_cases k <;> rfl

theorem digitVal_lt {r : Nat} {c : Char} {d : Nat} (h : digitVal r c = some d) : d < r := by
  simp only [digitVal] at h
  split at h
  · split_ifs at h with hlt
    cases h
    exact hlt
  · cases h

theorem parseStringBody_hex2 (a b : Char) (x y : Nat) (tail acc : List Char)
    (ha : digitVal 16 a = some x) (hb : digitVal 16 b = some y) :
    parseStringBody .normal ('\\' :: 'u' :: '0' :: '0' :: a :: b :: tail) acc =
      parseStringBody .normal tail (Char.ofNat (x * 16 + y) :: acc) := by
  have h0 : digitVal 16 '0' = some 0 := rfl
  have e1 : parseStringBody .normal ('\\' :: 'u' :: '0' :: '0' :: a :: b :: tail) acc =
      parseStringBody (.hex 2 0) (a :: b :: tail) acc := rfl
  have hx : x < 16 := digitVal_lt ha
  have hy : y < 16 := digitVal_lt hb
  have h1 : ¬ (55296 ≤ x * 16 + y ∧ x * 16 + y ≤ 56319) := by omega
  have h2 : ¬ (56320 ≤ x * 16 + y ∧ x * 16 + y ≤ 57343) := by omega
  rw [e1]
  simp only [parseStringBody, ha, hb]
  simp [h1, h2]

theorem parseStringBody_quoteChar (c : Char) (tail acc : List Char) :
    parseStringBody .normal (quoteChar c ++ tail) acc = parseStringBody .normal tail (c :: acc) := by
  unfold quoteChar
  simp only [beq_iff_eq]
  split_ifs with h8 h9 h10 h12 h13 h34 h92 h32
  · rw [← char_eq_ofNat h8]; rfl
  · rw [← char_eq_ofNat h9]; rfl
  · rw [← char_eq_ofNat h10]; rfl
  · rw [← char_eq_ofNat h12]; rfl
  · rw [← char_eq_ofNat h13]; rfl
  · rw [← char_eq_ofNat h34]; rfl
  · rw [← char_eq_ofNat h92]; rfl
  · have hd1 := digitVal16_digitChar (c.toNat / 16) (by omega)
    have hd2 := digitVal16_digitChar (c.toNat % 16) (by omega)
    have hc : c.toNat / 16 * 16 + c.toNat % 16 = c.toNat := by omega
    show parseStringBody .normal ('\\' :: 'u' :: '0' :: '0' :: _ :: _ :: tail) acc = _
    rw [parseStringBody_hex2 _ _ _ _ tail acc hd1 hd2, hc, Char.ofNat_toNat]
  · have e34 : (c.toNat == 34) = false := by simp [h34]
    have e92 : (c.toNat == 92) = false := by simp [h92]
    simp only [List.singleton_append, parseStringBody, e34, e92, h32, Bool.false_eq_true, if_false]
    rfl

theorem parseStringBody_quoteBody (s tail acc : List Char) :
    parseStringBody .normal (quoteBody s ++ '"' :: tail) acc = some (acc.reverse ++ s, tail) := by
  induction s generalizing acc with
  | nil => simp [quoteBody, parseStringBody]
  | cons c cs ih =>
    rw [quoteBody, List.append_assoc, parseStringBody_quoteChar, ih]
    simp

theorem skipWs_cons_of_not_ws (c : Char) (cs : List Char) (h : isJsonWs c = false) :
    skipWs (c :: cs) = c :: cs := by
  simp [skipWs, h]

/-- A quoted string reads back as the string. -/
theorem parseValue_quote (fuel : Nat) (s : String) (rest : List Char) :
    parseValue (fuel + 1) (quote s ++ rest) = some (.str s, rest) := by
  have e : quote s ++ rest = '"' :: (quoteBody s.toList ++ '"' :: rest) := by
    simp [quote]
  rw [e, parseValue, skipWs_cons_of_not_ws _ _ (by rfl)]
  have h1 : ('"'.toNat == 91) = false := by decide
  have h2 : ('"'.toNat == 123) = false := by decide
  have h3 : ('"'.toNat == 34) = true := by decide
  simp only [h1, h2, h3, Bool.false_eq_true, if_false, if_true, parseStringBody_quoteBody,
    List.reverse_nil, List.nil_append]
  rfl

theorem parseValue_null (fuel : Nat) (rest : List Char) :
    parseValue (fuel + 1) ('n' :: 'u' :: 'l' :: 'l' :: rest) = some (.null, rest) := by
  rw [parseValue, skipWs_cons_of_not_ws _ _ (by rfl)]
  have h1 : ('n'.toNat == 91) = false := by decide
  have h2 : ('n'.toNat == 123) = false := by decide
  have h3 : ('n'.toNat == 34) = false := by decide
  have h4 : ('n'.toNat == 116) = false := by decide
  have h5 : ('n'.toNat == 102) = false := by decide
  have h6 : ('n'.toNat == 110) = true := by decide
  simp only [h1, h2, h3, h4, h5, h6, Bool.false_eq_true, if_false, if_true, expectWord]
  simp [List.isPrefixOf]

theorem parseMember_quote (pv : List Char → Option (Json × List Char)) (k : String) (v : Json)
    (text rest : List Char) (h : pv (text ++ rest) = some (v, rest)) :
    parseMember pv (quote k ++ ':' :: (text ++ rest)) = some ((k, v), rest) := by
  have e : quote k ++ ':' :: (text ++ rest) =
      '"' :: (quoteBody k.toList ++ '"' :: ':' :: (text ++ rest)) := by
    simp [quote]
  rw [e, parseMember, skipWs_cons_of_not_ws _ _ (by rfl)]
  have h3 : ('"'.toNat == 34) = true := by decide
  simp only [h3, if_true, parseStringBody_quoteBody, List.reverse_nil, List.nil_append]
  rw [skipWs_cons_of_not_ws _ _ (by rfl)]
  have h4 : (':'.toNat == 58) = true := by decide
  simp only [h4, if_true, h]
  rfl

theorem isDelim_cases {c : Char} (h : isDelim c = true) :
    c.toNat = 44 ∨ c.toNat = 125 ∨ c.toNat = 93 := by
  simpa [isDelim, or_assoc] using h

theorem digitRun_append (ds : List Char) (d : Char) (t : List Char)
    (hds : ∀ c ∈ ds, isDigit c = true) (hd : isDigit d = false) :
    digitRun (ds ++ d :: t) = (ds, d :: t) := by
  induction ds with
  | nil => simp [digitRun, hd]
  | cons a as ih =>
    have ha := hds a (List.mem_cons_self _ _)
    have := ih (fun x hx => hds x (List.mem_cons_of_mem _ hx))
    simp [digitRun, ha, this]

theorem parseUnsignedNumber_toDigits (negative : Bool) (n : Nat) (d : Char) (t : List Char)
    (hd : isDelim d = true) :
    parseUnsignedNumber negative (Nat.toDigits 10 n ++ d :: t) =
      some (.num (if negative then - (n : Int) else (n : Int)) 0, d :: t) := by
  have hdc := isDelim_cases hd
  have hdig : isDigit d = false := by
    simp only [isDigit, Bool.and_eq_false_iff, decide_eq_false_iff_not]; omega
  have h46 : (d.toNat == 46) = false := by simp; omega
  have hexp : (d.toNat == 101 || d.toNat == 69) = false := by simp; omega
  have hfrac : parseFraction (d :: t) = some ([], d :: t) := by
    simp only [parseFraction, h46, Bool.false_eq_true, if_false]
  have hexpo : parseExponent (d :: t) = some (0, d :: t) := by
    simp only [parseExponent, hexp, Bool.false_eq_true, if_false]
  obtain ⟨hne, hall, hval, hhead⟩ := toDigits_spec n
  have hint : parseIntPart (Nat.toDigits 10 n ++ d :: t) = some (Nat.toDigits 10 n, d :: t) := by
    by_cases hn : n = 0
    · subst hn
      rfl
    · cases hds : Nat.toDigits 10 n with
      | nil => exact absurd hds hne
      | cons a as =>
        have ha : (a.toNat == 48) = false := by
          simp only [beq_eq_false_iff_ne]
          exact hhead hn a as hds
        have hda : isDigit a = true := hall a (by rw [hds]; exact List.mem_cons_self _ _)
        simp only [List.cons_append, parseIntPart, ha, hda, Bool.false_eq_true, if_false, if_true]
        rw [← List.cons_append, ← hds, digitRun_append _ _ _ hall hdig]
  simp only [parseUnsignedNumber, hint, hfrac, hexpo, List.append_nil, hval, List.length_nil,
    Nat.cast_zero, sub_self]

/-- The decimal text of an integer, followed by a delimiter, reads back as the integer. -/
theorem parseValue_intText (fuel : Nat) (n : Int) (d : Char) (t : List Char)
    (hd : isDelim d = true) :
    parseValue (fuel + 1) (intText n ++ d :: t) = some (.num n 0, d :: t) := by
  cases n with
  | ofNat k =>
    obtain ⟨hne, hall, _, _⟩ := toDigits_spec k
    cases hds : Nat.toDigits 10 k with
    | nil => exact absurd hds hne
    | cons a as =>
      have hda : isDigit a = true := hall a (by rw [hds]; exact List.mem_cons_self _ _)
      simp only [isDigit, Bool.and_eq_true, decide_eq_true_eq] at hda
      have hws : isJsonWs a = false := by
        simp only [isJsonWs, Bool.or_eq_false_iff, beq_eq_false_iff_ne]; omega
      have e1 : (a.toNat == 91) = false := by simp; omega
      have e2 : (a.toNat == 123) = false := by simp; omega
      have e3 : (a.toNat == 34) = false := by simp; omega
      have e4 : (a.toNat == 116) = false := by simp; omega
      have e5 : (a.toNat == 102) = false := by simp; omega
      have e6 : (a.toNat == 110) = false := by simp; omega
      have e7 : (a.toNat == 45) = false := by simp; omega
      have := parseUnsignedNumber_toDigits false k d t hd
      rw [hds] at this
      simp only [intText, hds, List.cons_append, parseValue, skipWs_cons_of_not_ws _ _ hws,
        e1, e2, e3, e4, e5, e6, e7, parseNumber, Bool.false_eq_true, if_false]
      rw [← List.cons_append, this]
      rfl
  | negSucc k =>
    have := parseUnsignedNumber_toDigits true (k + 1) d t hd
    have e : intText (Int.negSucc k) ++ d :: t = '-' :: (Nat.toDigits 10 (k + 1) ++ d :: t) := rfl
    have hws : isJsonWs '-' = false := by rfl
    have e1 : ('-'.toNat == 91) = false := by decide
    have e2 : ('-'.toNat == 123) = false := by decide
    have e3 : ('-'.toNat == 34) = false := by decide
    have e4 : ('-'.toNat == 116) = false := by decide
    have e5 : ('-'.toNat == 102) = false := by decide
    have e6 : ('-'.toNat == 110) = false := by decide
    have e7 : ('-'.toNat == 45) = true := by decide
    rw [e]
    simp only [parseValue, skipWs_cons_of_not_ws _ _ hws, e1, e2, e3, e4, e5, e6, e7, parseNumber,
      Bool.false_eq_true, if_false, if_true, this]
    rfl

theorem moreItems_delim (xs : List Json) (rest : List Char) :
    ∃ d t, stringifyMoreItems xs ++ ']' :: rest = d :: t ∧ isDelim d = true := by
  cases xs with
  | nil => exact ⟨']', rest, by simp [stringifyMoreItems], by decide⟩
  | cons x xs =>
    exact ⟨',', stringifyChars x ++ stringifyMoreItems xs ++ ']' :: rest,
      by simp [stringifyMoreItems], by decide⟩

theorem moreMembers_delim (ms : List (String × Json)) (rest : List Char) :
    ∃ d t, stringifyMoreMembers ms ++ '}' :: rest = d :: t ∧ isDelim d = true := by
  cases ms with
  | nil => exact ⟨'}', rest, by simp [stringifyMoreMembers], by decide⟩
  | cons m ms =>
    obtain ⟨k, v⟩ := m
    exact ⟨',', quote k ++ ':' :: (stringifyChars v ++ stringifyMoreMembers ms) ++ '}' :: rest,
      by simp [stringifyMoreMembers], by decide⟩

theorem moreItems_length (xs : List Json) : xs.length ≤ (stringifyMoreItems xs).length := by
  induction xs with
  | nil => simp
  | cons x xs ih => simp only [stringifyMoreItems, List.length_cons, List.length_append]; omega

theorem moreMembers_length (ms : List (String × Json)) :
    ms.length ≤ (stringifyMoreMembers ms).length := by
  induction ms with
  | nil => simp
  | cons m ms ih =>
    obtain ⟨k, v⟩ := m
    simp only [stringifyMoreMembers, List.length_cons, List.length_append]; omega

theorem parseArrayRest_items (pv : List Char → Option (Json × List Char)) (items : List Json)
    (h : ∀ v ∈ items, ReadsBack pv v) (n : Nat) (hn : items.length < n)
    (acc : List Json) (rest : List Char) :
    parseArrayRest pv n (stringifyMoreItems items ++ ']' :: rest) acc =
      some (.arr (acc.reverse ++ items), rest) := by
  induction items generalizing n acc with
  | nil =>
    cases n with
    | zero => omega
    | succ m =>
      have e : (']'.toNat == 93) = true := by decide
      simp only [stringifyMoreItems, List.nil_append, parseArrayRest,
        skipWs_cons_of_not_ws _ _ (by rfl : isJsonWs ']' = false), e, if_true, List.append_nil]
  | cons x xs ih =>
    cases n with
    | zero => omega
    | succ m =>
      have e1 : (','.toNat == 93) = false := by decide
      have e2 : (','.toNat == 44) = true := by decide
      obtain ⟨d, t, hdt, hd⟩ := moreItems_delim xs rest
      have hx := h x (List.mem_cons_self _ _) d t hd
      simp only [stringifyMoreItems, List.cons_append, List.append_assoc, parseArrayRest,
        skipWs_cons_of_not_ws _ _ (by rfl : isJsonWs ',' = false), e1, e2, Bool.false_eq_true,
        if_false, if_true]
      rw [hdt, hx, ← hdt]
      simp only
      rw [ih (fun v hv => h v (List.mem_cons_of_mem _ hv)) m
        (by simp only [List.length_cons] at hn; omega)]
      simp

theorem parseObjectRest_members (pv : List Char → Option (Json × List Char))
    (ms : List (String × Json)) (h : ∀ m ∈ ms, ReadsBack pv m.2) (n : Nat) (hn : ms.length < n)
    (acc : List (String × Json)) (rest : List Char) :
    parseObjectRest pv n (stringifyMoreMembers ms ++ '}' :: rest) acc =
      some (.obj (acc.reverse ++ ms), rest) := by
  induction ms generalizing n acc with
  | nil =>
    cases n with
    | zero => omega
    | succ m =>
      have e : ('}'.toNat == 125) = true := by decide
      simp only [stringifyMoreMembers, List.nil_append, parseObjectRest,
        skipWs_cons_of_not_ws _ _ (by rfl : isJsonWs '}' = false), e, if_true, List.append_nil]
  | cons kv ms ih =>
    obtain ⟨k, v⟩ := kv
    cases n with
    | zero => omega
    | succ m =>
      have e1 : (','.toNat == 125) = false := by decide
      have e2 : (','.toNat == 44) = true := by decide
      obtain ⟨d, t, hdt, hd⟩ := moreMembers_delim ms rest
      have hx := h (k, v) (List.mem_cons_self _ _) d t hd
      have hm := parseMember_quote pv k v (stringifyChars v) (d :: t) hx
      simp only [stringifyMoreMembers, List.cons_append, List.append_assoc, parseObjectRest,
        skipWs_cons_of_not_ws _ _ (by rfl : isJsonWs ',' = false), e1, e2, Bool.false_eq_true,
        if_false, if_true]
      rw [hdt, hm, ← hdt]
      simp only
      rw [ih (fun v hv => h v (List.mem_cons_of_mem _ hv)) m
        (by simp only [List.length_cons] at hn; omega)]
      simp

theorem parseValue_obj (fuel : Nat) (k : String) (v : Json) (ms : List (String × Json))
    (h : ∀ m ∈ (k, v) :: ms, ReadsBack (parseValue fuel) m.2) (rest : List Char) :
    parseValue (fuel + 1) (stringifyChars (.obj ((k, v) :: ms)) ++ rest) =
      some (.obj ((k, v) :: ms), rest) := by
  obtain ⟨d, t, hdt, hd⟩ := moreMembers_delim ms rest
  have hv := h (k, v) (List.mem_cons_self _ _) d t hd
  have hm := parseMember_quote (parseValue fuel) k v (stringifyChars v) (d :: t) hv
  have etext : stringifyChars (.obj ((k, v) :: ms)) ++ rest =
      '{' :: '"' :: (quoteBody k.toList ++ '"' :: ':' :: (stringifyChars v ++ d :: t)) := by
    rw [← hdt]
    simp [stringifyChars, stringifyMembers, quote]
  have equote : '"' :: (quoteBody k.toList ++ '"' :: ':' :: (stringifyChars v ++ d :: t)) =
      quote k ++ ':' :: (stringifyChars v ++ d :: t) := by
    simp [quote]
  have e1 : ('{'.toNat == 91) = false := by decide
  have e2 : ('{'.toNat == 123) = true := by decide
  have e3 : ('"'.toNat == 125) = false := by decide
  rw [etext, parseValue, skipWs_cons_of_not_ws _ _ (by rfl : isJsonWs '{' = false)]
  simp only [e1, e2, Bool.false_eq_true, if_false, if_true,
    skipWs_cons_of_not_ws _ _ (by rfl : isJsonWs '"' = false), e3]
  rw [equote, hm]
  simp only
  rw [← hdt, parseObjectRest_members (parseValue fuel) ms
    (fun m hm => h m (List.mem_cons_of_mem _ hm)) _
    (by
      have := moreMembers_length ms
      simp only [List.length_append, List.length_cons]; omega)]
  simp

theorem parseValue_arr_nil (fuel : Nat) (rest : List Char) :
    parseValue (fuel + 1) (stringifyChars (.arr []) ++ rest) = some (.arr [], rest) := by
  have etext : stringifyChars (.arr []) ++ rest = '[' :: ']' :: rest := by
    simp [stringifyChars, stringifyItems]
  have e1 : ('['.toNat == 91) = true := by decide
  have e2 : (']'.toNat == 93) = true := by decide
  rw [etext, parseValue, skipWs_cons_of_not_ws _ _ (by rfl : isJsonWs '[' = false)]
  simp only [e1, if_true, skipWs_cons_of_not_ws _ _ (by rfl : isJsonWs ']' = false), e2]

theorem parseValue_arr_objs (fuel : Nat) (x : Json) (xs : List Json)
    (hx : ∃ t0, stringifyChars x = '{' :: t0)
    (h : ∀ v ∈ x :: xs, ReadsBack (parseValue fuel) v) (rest : List Char) :
    parseValue (fuel + 1) (stringifyChars (.arr (x :: xs)) ++ rest) =
      some (.arr (x :: xs), rest) := by
  obtain ⟨d, t, hdt, hd⟩ := moreItems_delim xs rest
  obtain ⟨t0, ht0⟩ := hx
  have hv := h x (List.mem_cons_self _ _) d t hd
  have etext : stringifyChars (.arr (x :: xs)) ++ rest =
      '[' :: '{' :: (t0 ++ d :: t) := by
    rw [← hdt, ← List.cons_append, ← ht0]
    simp [stringifyChars, stringifyItems]
  have eback : '{' :: (t0 ++ d :: t) = stringifyChars x ++ d :: t := by
    rw [ht0]; rfl
  have e1 : ('['.toNat == 91) = true := by decide
  have e3 : ('{'.toNat == 93) = false := by decide
  rw [etext, parseValue, skipWs_cons_of_not_ws _ _ (by rfl : isJsonWs '[' = false)]
  simp only [e1, if_true, skipWs_cons_of_not_ws _ _ (by rfl : isJsonWs '{' = false), e3,
    Bool.false_eq_true, if_false]
  rw [eback, hv]
  simp only
  rw [← hdt, parseArrayRest_items (parseValue fuel) xs
    (fun m hm => h m (List.mem_cons_of_mem _ hm)) _
    (by
      have := moreItems_length xs
      simp only [List.length_append, List.length_cons]; omega)]
  simp

theorem readsBack_str (fuel : Nat) (s : String) : ReadsBack (parseValue (fuel + 1)) (.str s) := by
  intro d t _
  exact parseValue_quote fuel s (d :: t)

theorem readsBack_null (fuel : Nat) : ReadsBack (parseValue (fuel + 1)) .null := by
  intro d t _
  exact parseValue_null fuel (d :: t)

theorem readsBack_int (fuel : Nat) (n : Int) : ReadsBack (parseValue (fuel + 1)) (.num n 0) := by
  intro d t hd
  have e : stringifyChars (.num n 0) = intText n := by simp [stringifyChars]
  rw [e]
  exact parseValue_intText fuel n d t hd

theorem readsBack_detail (fuel : Nat) (d : Detail) :
    ReadsBack (parseValue (fuel + 2)) d.toJson := by
  intro c t _
  unfold Detail.toJson
  apply parseValue_obj
  intro m hm
  simp only [List.mem_cons, List.mem_singleton, List.not_mem_nil, or_false] at hm
  rcases hm with rfl | rfl
  · cases d.label with
    | none => exact readsBack_null fuel
    | some l => exact readsBack_str fuel l
  · exact readsBack_str fuel _

theorem stringifyChars_obj_head (ms : List (String × Json)) :
    ∃ t0, stringifyChars (.obj ms) = '{' :: t0 :=
  ⟨_, by rw [stringifyChars]⟩

theorem readsBack_details (fuel : Nat) (ds : List Detail) :
    ReadsBack (parseValue (fuel + 3)) (.arr (ds.map Detail.toJson)) := by
  intro c t _
  cases ds with
  | nil => exact parseValue_arr_nil _ _
  | cons d ds =>
    rw [List.map_cons]
    apply parseValue_arr_objs
    · exact stringifyChars_obj_head _
    · intro v hv
      rw [← List.map_cons, List.mem_map] at hv
      obtain ⟨x, _, rfl⟩ := hv
      exact readsBack_detail fuel x

theorem readsBack_property (fuel : Nat) (p : SelectedProperty) :
    ReadsBack (parseValue (fuel + 4)) p.toJson := by
  intro c t _
  unfold SelectedProperty.toJson
  apply parseValue_obj
  intro m hm
  simp only [List.mem_cons, List.mem_singleton, List.not_mem_nil, or_false] at hm
  rcases hm with rfl | rfl | rfl | rfl | rfl | rfl
  · exact readsBack_str _ _
  · exact readsBack_str _ _
  · exact readsBack_str _ _
  · exact readsBack_str _ _
  · exact readsBack_details fuel _
  · exact readsBack_int _ _

theorem parseValue_selection (fuel : Nat) (sel : List SelectedProperty) (rest : List Char) :
    parseValue (fuel + 5) (stringifyChars (.arr (sel.map SelectedProperty.toJson)) ++ rest) =
      some (.arr (sel.map SelectedProperty.toJson), rest) := by
  cases sel with
  | nil => exact parseValue_arr_nil _ _
  | cons p ps =>
    rw [List.map_cons]
    apply parseValue_arr_objs
    · exact stringifyChars_obj_head _
    · intro v hv
      rw [← List.map_cons, List.mem_map] at hv
      obtain ⟨x, _, rfl⟩ := hv
      exact readsBack_property fuel x

theorem stringifyChars_selection_length (p : SelectedProperty) (ps : List SelectedProperty) :
    4 ≤ (stringifyChars (.arr ((p :: ps).map SelectedProperty.toJson))).length := by
  simp only [List.map_cons, stringifyChars, stringifyItems, SelectedProperty.toJson,
    List.length_cons, List.length_append]
  omega

/-- The text `JSON.stringify` writes for a selection list parses back to the list. -/
theorem parse_stringify_selection (sel : List SelectedProperty) :
    JSON.parse (JSON.stringify (.arr (sel.map SelectedProperty.toJson))) =
      .ok (.arr (sel.map SelectedProperty.toJson)) := by
  unfold JSON.parse JSON.stringify
  show (match parseValue ((stringifyChars (.arr (sel.map SelectedProperty.toJson))).length + 1)
      (stringifyChars (.arr (sel.map SelectedProperty.toJson))) with
    | none => Except.error JsError.syntaxError
    | some (v, rest) =>
      match skipWs rest with
      | [] => Except.ok v
      | _ :: _ => Except.error JsError.syntaxError) = _
  have key : parseValue ((stringifyChars (.arr (sel.map SelectedProperty.toJson))).length + 1)
      (stringifyChars (.arr (sel.map SelectedProperty.toJson))) =
      some (.arr (sel.map SelectedProperty.toJson), []) := by
    cases sel with
    | nil => exact (parseValue_arr_nil _ []).symm ▸ (by rfl)
    | cons p ps =>
      have hlen := stringifyChars_selection_length p ps
      obtain ⟨f, hf⟩ : ∃ f, (stringifyChars (.arr ((p :: ps).map SelectedProperty.toJson))).length + 1
          = f + 5 :=
        ⟨(stringifyChars (.arr ((p :: ps).map SelectedProperty.toJson))).length - 4, by omega⟩
      rw [hf]
      have := parseValue_selection f (p :: ps) []
      rwa [List.append_nil] at this
  rw [key]
  rfl

/-! ## The bounds of the parser are never reached -/

theorem skipWs_length (cs : List Char) : (skipWs cs).length ≤ cs.length := by
  induction cs with
  | nil => simp [skipWs]
  | cons c cs ih =>
    simp only [skipWs]
    split_ifs
    · simp only [List.length_cons]; omega
    · exact Nat.le_refl _

theorem skipWs_eq_cons_length {cs : List Char} {c : Char} {rest : List Char}
    (h : skipWs cs = c :: rest) : rest.length < cs.length := by
  have := skipWs_length cs
  rw [h] at this
  simp only [List.length_cons] at this
  omega

theorem parseStringBody_length (st : StrState) (cs acc s rest : List Char)
    (h : parseStringBody st cs acc = some (s, rest)) : rest.length < cs.length := by
  induction cs generalizing st acc with
  | nil => cases st <;> simp [parseStringBody] at h
  | cons c cs ih =>
    cases st with
    | normal =>
      simp only [parseStringBody] at h
      split_ifs at h
      · cases h; simp
      · have hlen := ih _ _ h; simp only [List.length_cons]; omega
      · have hlen := ih _ _ h; simp only [List.length_cons]; omega
    | escape =>
      simp only [parseStringBody] at h
      split_ifs at h
      · have hlen := ih _ _ h; simp only [List.length_cons]; omega
      · split at h
        · have hlen := ih _ _ h; simp only [List.length_cons]; omega
        · cases h
    | hex count value =>
      simp only [parseStringBody] at h
      split at h
      · cases h
      · split_ifs at h <;> (have hlen := ih _ _ h; simp only [List.length_cons]; omega)
    | pending high =>
      simp only [parseStringBody] at h
      split_ifs at h
      · cases h; simp
      · have hlen := ih _ _ h; simp only [List.length_cons]; omega
      · have hlen := ih _ _ h; simp only [List.length_cons]; omega
    | pendingEscape high =>
      simp only [parseStringBody] at h
      split_ifs at h
      · have hlen := ih _ _ h; simp only [List.length_cons]; omega
      · split at h
        · have hlen := ih _ _ h; simp only [List.length_cons]; omega
        · cases h
    | pendingHex high count value =>
      simp only [parseStringBody] at h
      split at h
      · cases h
      · split_ifs at h <;> (have hlen := ih _ _ h; simp only [List.length_cons]; omega)

theorem digitRun_length (cs : List Char) : (digitRun cs).2.length ≤ cs.length := by
  induction cs with
  | nil => simp [digitRun]
  | cons c cs ih =>
    simp only [digitRun]
    split_ifs
    · simp only [List.length_cons]; omega
    · exact Nat.le_refl _

theorem parseIntPart_length (cs ds rest : List Char) (h : parseIntPart cs = some (ds, rest)) :
    rest.length < cs.length := by
  cases cs with
  | nil => simp [parseIntPart] at h
  | cons c cs =>
    simp only [parseIntPart] at h
    split_ifs at h with h1 h2
    · cases h; simp
    · simp only [Option.some.injEq] at h
      have e : rest = (digitRun (c :: cs)).2 := by rw [h]
      have := digitRun_length cs
      rw [e]
      simp only [digitRun, h2, if_true, List.length_cons]
      omega

theorem parseFraction_length (cs ds rest : List Char) (h : parseFraction cs = some (ds, rest)) :
    rest.length ≤ cs.length := by
  cases cs with
  | nil => simp [parseFraction] at h; rw [h.2]
  | cons c cs =>
    simp only [parseFraction] at h
    split_ifs at h
    · simp only [Option.some.injEq] at h
      have e : rest = (digitRun cs).2 := by rw [h]
      have := digitRun_length cs
      rw [e]
      simp only [List.length_cons]; omega
    · cases h; exact Nat.le_refl _

theorem parseExponentDigits_length (neg : Bool) (cs : List Char) (e : Int) (rest : List Char)
    (h : parseExponentDigits neg cs = some (e, rest)) : rest.length ≤ cs.length := by
  simp only [parseExponentDigits] at h
  split_ifs at h <;> (cases h; exact digitRun_length cs)

theorem parseExponent_length (cs : List Char) (e : Int) (rest : List Char)
    (h : parseExponent cs = some (e, rest)) : rest.length ≤ cs.length := by
  cases cs with
  | nil => simp [parseExponent] at h; rw [h.2]
  | cons c cs =>
    simp only [parseExponent] at h
    split_ifs at h
    · cases cs with
      | nil => simp at h
      | cons s rest1 =>
        simp only at h
        split_ifs at h <;>
          (have hlen := parseExponentDigits_length _ _ _ _ h; simp only [List.length_cons] at hlen ⊢; omega)
    · cases h; exact Nat.le_refl _

theorem parseUnsignedNumber_length (neg : Bool) (cs : List Char) (v : Json) (rest : List Char)
    (h : parseUnsignedNumber neg cs = some (v, rest)) : rest.length < cs.length := by
  simp only [parseUnsignedNumber] at h
  cases h1 : parseIntPart cs with
  | none => rw [h1] at h; cases h
  | some r1 =>
    obtain ⟨ds, cs1⟩ := r1
    rw [h1] at h
    simp only at h
    cases h2 : parseFraction cs1 with
    | none => rw [h2] at h; cases h
    | some r2 =>
      obtain ⟨fs, cs2⟩ := r2
      rw [h2] at h
      simp only at h
      cases h3 : parseExponent cs2 with
      | none => rw [h3] at h; cases h
      | some r3 =>
        obtain ⟨e, cs3⟩ := r3
        rw [h3] at h
        simp only [Option.some.injEq, Prod.mk.injEq] at h
        rw [← h.2]
        have a1 := parseIntPart_length _ _ _ h1
        have a2 := parseFraction_length _ _ _ h2
        have a3 := parseExponent_length _ _ _ h3
        omega

theorem parseNumber_length (cs : List Char) (v : Json) (rest : List Char)
    (h : parseNumber cs = some (v, rest)) : rest.length < cs.length := by
  cases cs with
  | nil => simp [parseNumber] at h
  | cons c cs =>
    simp only [parseNumber] at h
    split_ifs at h
    · have := parseUnsignedNumber_length _ _ _ _ h
      simp only [List.length_cons]; omega
    · exact parseUnsignedNumber_length _ _ _ _ h

theorem expectWord_length (w : List Char) (hw : w ≠ []) (v : Json) (cs : List Char) (v1 : Json)
    (rest : List Char) (h : expectWord w v cs = some (v1, rest)) : rest.length < cs.length := by
  simp only [expectWord] at h
  split_ifs at h with hp
  cases h
  rw [ List.isPrefixOf_iff_prefix] at hp
  obtain ⟨t, rfl⟩ := hp
  have : 0 < w.length := List.length_pos.mpr hw
  simp only [List.drop_left, List.length_append]
  omega

theorem parseMember_length (pv : List Char → Option (Json × List Char)) (hpv : Shrinks pv)
    (cs : List Char) (m : String × Json) (rest : List Char)
    (h : parseMember pv cs = some (m, rest)) : rest.length < cs.length := by
  simp only [parseMember] at h
  cases h0 : skipWs cs with
  | nil => rw [h0] at h; cases h
  | cons c r0 =>
    rw [h0] at h
    have l0 := skipWs_eq_cons_length h0
    simp only at h
    split_ifs at h
    cases h1 : parseStringBody .normal r0 [] with
    | none => rw [h1] at h; cases h
    | some kr =>
      obtain ⟨key, r1⟩ := kr
      rw [h1] at h
      have l1 := parseStringBody_length _ _ _ _ _ h1
      simp only at h
      cases h2 : skipWs r1 with
      | nil => rw [h2] at h; cases h
      | cons d r2 =>
        rw [h2] at h
        have l2 := skipWs_eq_cons_length h2
        simp only at h
        split_ifs at h
        cases h3 : pv r2 with
        | none => rw [h3] at h; cases h
        | some vr =>
          obtain ⟨v, r3⟩ := vr
          rw [h3] at h
          have l3 := hpv _ _ _ h3
          simp only [Option.some.injEq, Prod.mk.injEq] at h
          rw [← h.2]
          omega

theorem parseArrayRest_length (pv : List Char → Option (Json × List Char)) (hpv : Shrinks pv)
    (n : Nat) (cs : List Char) (acc : List Json) (v : Json) (rest : List Char)
    (h : parseArrayRest pv n cs acc = some (v, rest)) : rest.length < cs.length := by
  induction n generalizing cs acc with
  | zero => simp [parseArrayRest] at h
  | succ n ih =>
    simp only [parseArrayRest] at h
    cases h0 : skipWs cs with
    | nil => rw [h0] at h; cases h
    | cons c r0 =>
      rw [h0] at h
      have l0 := skipWs_eq_cons_length h0
      simp only at h
      split_ifs at h
      · simp only [Option.some.injEq, Prod.mk.injEq] at h
        rw [← h.2]; exact l0
      · cases h1 : pv r0 with
        | none => rw [h1] at h; cases h
        | some vr =>
          obtain ⟨v1, r1⟩ := vr
          rw [h1] at h
          have l1 := hpv _ _ _ h1
          have := ih _ _ h
          omega

theorem parseObjectRest_length (pv : List Char → Option (Json × List Char)) (hpv : Shrinks pv)
    (n : Nat) (cs : List Char) (acc : List (String × Json)) (v : Json) (rest : List Char)
    (h : parseObjectRest pv n cs acc = some (v, rest)) : rest.length < cs.length := by
  induction n generalizing cs acc with
  | zero => simp [parseObjectRest] at h
  | succ n ih =>
    simp only [parseObjectRest] at h
    cases h0 : skipWs cs with
    | nil => rw [h0] at h; cases h
    | cons c r0 =>
      rw [h0] at h
      have l0 := skipWs_eq_cons_length h0
      simp only at h
      split_ifs at h
      · simp only [Option.some.injEq, Prod.mk.injEq] at h
        rw [← h.2]; exact l0
      · cases h1 : parseMember pv r0 with
        | none => rw [h1] at h; cases h
        | some vr =>
          obtain ⟨v1, r1⟩ := vr
          rw [h1] at h
          have l1 := parseMember_length pv hpv _ _ _ h1
          have := ih _ _ h
          omega

/-- A value that is read takes at least one character. -/
theorem parseValue_shrinks (fuel : Nat) : Shrinks (parseValue fuel) := by
  induction fuel with
  | zero => intro cs v rest h; simp [parseValue] at h
  | succ fuel ih =>
    intro cs v rest h
    simp only [parseValue] at h
    cases h0 : skipWs cs with
    | nil => rw [h0] at h; cases h
    | cons c r0 =>
      rw [h0] at h
      have l0 := skipWs_eq_cons_length h0
      have l0' : (c :: r0).length ≤ cs.length := by rw [← h0]; exact skipWs_length cs
      simp only at h
      split_ifs at h
      · cases h1 : skipWs r0 with
        | nil => rw [h1] at h; cases h
        | cons d r1 =>
          rw [h1] at h
          have l1 := skipWs_eq_cons_length h1
          simp only at h
          split_ifs at h
          · simp only [Option.some.injEq, Prod.mk.injEq] at h
            rw [← h.2]; omega
          · cases h2 : parseValue fuel (d :: r1) with
            | none => rw [h2] at h; cases h
            | some vr =>
              obtain ⟨v1, r2⟩ := vr
              rw [h2] at h
              have l2 := ih _ _ _ h2
              have l3 := parseArrayRest_length _ ih _ _ _ _ _ h
              simp only [List.length_cons] at l2
              omega
      · cases h1 : skipWs r0 with
        | nil => rw [h1] at h; cases h
        | cons d r1 =>
          rw [h1] at h
          have l1 := skipWs_eq_cons_length h1
          simp only at h
          split_ifs at h
          · simp only [Option.some.injEq, Prod.mk.injEq] at h
            rw [← h.2]; omega
          · cases h2 : parseMember (parseValue fuel) (d :: r1) with
            | none => rw [h2] at h; cases h
            | some vr =>
              obtain ⟨v1, r2⟩ := vr
              rw [h2] at h
              have l2 := parseMember_length _ ih _ _ _ h2
              have l3 := parseObjectRest_length _ ih _ _ _ _ _ h
              simp only [List.length_cons] at l2
              omega
      · cases h1 : parseStringBody .normal r0 [] with
        | none => rw [h1] at h; cases h
        | some sr =>
          obtain ⟨s, r1⟩ := sr
          rw [h1] at h
          have l1 := parseStringBody_length _ _ _ _ _ h1
          simp only [Option.some.injEq, Prod.mk.injEq] at h
          rw [← h.2]; omega
      · have := expectWord_length _ (by simp) _ _ _ _ h; omega
      · have := expectWord_length _ (by simp) _ _ _ _ h; omega
      · have := expectWord_length _ (by simp) _ _ _ _ h; omega
      · have := parseNumber_length _ _ _ h; omega

theorem parseMember_congr (pv1 pv2 : List Char → Option (Json × List Char)) (cs : List Char)
    (h : ∀ cs1 : List Char, cs1.length < cs.length → pv1 cs1 = pv2 cs1) :
    parseMember pv1 cs = parseMember pv2 cs := by
  simp only [parseMember]
  cases h0 : skipWs cs with
  | nil => rfl
  | cons c r0 =>
    have l0 := skipWs_eq_cons_length h0
    simp only
    split_ifs
    · cases h1 : parseStringBody .normal r0 [] with
      | none => rfl
      | some kr =>
        obtain ⟨key, r1⟩ := kr
        have l1 := parseStringBody_length _ _ _ _ _ h1
        simp only
        cases h2 : skipWs r1 with
        | nil => rfl
        | cons d r2 =>
          have l2 := skipWs_eq_cons_length h2
          simp only
          rw [h r2 (by omega)]
    · rfl

theorem parseArrayRest_congr (pv1 pv2 : List Char → Option (Json × List Char))
    (hpv : Shrinks pv1) (n : Nat) (cs : List Char) (acc : List Json)
    (h : ∀ cs1 : List Char, cs1.length < cs.length → pv1 cs1 = pv2 cs1) :
    parseArrayRest pv1 n cs acc = parseArrayRest pv2 n cs acc := by
  induction n generalizing cs acc with
  | zero => rfl
  | succ n ih =>
    simp only [parseArrayRest]
    cases h0 : skipWs cs with
    | nil => rfl
    | cons c r0 =>
      have l0 := skipWs_eq_cons_length h0
      simp only
      rw [← h r0 l0]
      cases h1 : pv1 r0 with
      | none => rfl
      | some vr =>
        obtain ⟨v1, r1⟩ := vr
        have l1 := hpv _ _ _ h1
        simp only
        rw [ih r1 (v1 :: acc) (fun cs1 hc => h cs1 (by omega))]

theorem parseObjectRest_congr (pv1 pv2 : List Char → Option (Json × List Char))
    (hpv : Shrinks pv1) (n : Nat) (cs : List Char) (acc : List (String × Json))
    (h : ∀ cs1 : List Char, cs1.length < cs.length → pv1 cs1 = pv2 cs1) :
    parseObjectRest pv1 n cs acc = parseObjectRest pv2 n cs acc := by
  induction n generalizing cs acc with
  | zero => rfl
  | succ n ih =>
    simp only [parseObjectRest]
    cases h0 : skipWs cs with
    | nil => rfl
    | cons c r0 =>
      have l0 := skipWs_eq_cons_length h0
      simp only
      rw [← parseMember_congr pv1 pv2 r0 (fun cs1 hc => h cs1 (by omega))]
      cases h1 : parseMember pv1 r0 with
      | none => rfl
      | some vr =>
        obtain ⟨v1, r1⟩ := vr
        have l1 := parseMember_length pv1 hpv _ _ _ h1
        simp only
        rw [ih r1 (v1 :: acc) (fun cs1 hc => h cs1 (by omega))]

/-- The loop over the elements of an array never runs out of steps: any two
bounds above the length of the text give the same result. -/
theorem parseArrayRest_fuel (pv : List Char → Option (Json × List Char)) (hpv : Shrinks pv)
    (n m : Nat) (cs : List Char) (acc : List Json) (hn : cs.length < n) (hm : cs.length < m) :
    parseArrayRest pv n cs acc = parseArrayRest pv m cs acc := by
  induction n generalizing m cs acc with
  | zero => omega
  | succ n ih =>
    cases m with
    | zero => omega
    | succ m =>
      simp only [parseArrayRest]
      cases h0 : skipWs cs with
      | nil => rfl
      | cons c r0 =>
        have l0 := skipWs_eq_cons_length h0
        simp only
        cases h1 : pv r0 with
        | none => rfl
        | some vr =>
          obtain ⟨v1, r1⟩ := vr
          have l1 := hpv _ _ _ h1
          simp only
          rw [ih m r1 (v1 :: acc) (by omega) (by omega)]

/-- The loop over the members of an object never runs out of steps. -/
theorem parseObjectRest_fuel (pv : List Char → Option (Json × List Char)) (hpv : Shrinks pv)
    (n m : Nat) (cs : List Char) (acc : List (String × Json)) (hn : cs.length < n)
    (hm : cs.length < m) :
    parseObjectRest pv n cs acc = parseObjectRest pv m cs acc := by
  induction n generalizing m cs acc with
  | zero => omega
  | succ n ih =>
    cases m with
    | zero => omega
    | succ m =>
      simp only [parseObjectRest]
      cases h0 : skipWs cs with
      | nil => rfl
      | cons c r0 =>
        have l0 := skipWs_eq_cons_length h0
        simp only
        cases h1 : parseMember pv r0 with
        | none => rfl
        | some vr =>
          obtain ⟨v1, r1⟩ := vr
          have l1 := parseMember_length pv hpv _ _ _ h1
          simp only
          rw [ih m r1 (v1 :: acc) (by omega) (by omega)]

/-- The nesting bound of `parseValue` is never reached once it exceeds the
length of the text: any two such bounds give the same result. -/
theorem parseValue_fuel (f1 f2 : Nat) (cs : List Char) (h1 : cs.length < f1)
    (h2 : cs.length < f2) : parseValue f1 cs = parseValue f2 cs := by
  induction f1 generalizing f2 cs with
  | zero => omega
  | succ f1 ih =>
    cases f2 with
    | zero => omega
    | succ f2 =>
      simp only [parseValue]
      cases h0 : skipWs cs with
      | nil => rfl
      | cons c r0 =>
        have l0 := skipWs_eq_cons_length h0
        simp only
        split_ifs
        · cases h3 : skipWs r0 with
          | nil => rfl
          | cons d r1 =>
            have l1 := skipWs_eq_cons_length h3
            simp only
            split_ifs
            · rfl
            · rw [← ih f2 (d :: r1) (by simp only [List.length_cons]; omega)
                (by simp only [List.length_cons]; omega)]
              cases h4 : parseValue f1 (d :: r1) with
              | none => rfl
              | some vr =>
                obtain ⟨v1, r2⟩ := vr
                have l2 := parseValue_shrinks f1 _ _ _ h4
                simp only [List.length_cons] at l2
                simp only
                exact parseArrayRest_congr _ _ (parseValue_shrinks f1) _ _ _
                  (fun cs1 hc => ih f2 cs1 (by omega) (by omega))
        · cases h3 : skipWs r0 with
          | nil => rfl
          | cons d r1 =>
            have l1 := skipWs_eq_cons_length h3
            simp only
            split_ifs
            · rfl
            · rw [← parseMember_congr (parseValue f1) (parseValue f2) (d :: r1)
                (fun cs1 hc => ih f2 cs1 (by simp only [List.length_cons] at hc; omega)
                  (by simp only [List.length_cons] at hc; omega))]
              cases h4 : parseMember (parseValue f1) (d :: r1) with
              | none => rfl
              | some vr =>
                obtain ⟨v1, r2⟩ := vr
                have l2 := parseMember_length _ (parseValue_shrinks f1) _ _ _ h4
                simp only [List.length_cons] at l2
                simp only
                exact parseObjectRest_congr _ _ (parseValue_shrinks f1) _ _ _
                  (fun cs1 hc => ih f2 cs1 (by omega) (by omega))
        · rfl
        · rfl
        · rfl
        · rfl
        · rfl

/-! ## Persistence: properties -/

theorem getItem_of_setItem (ls ls1 : LocalStorage) (key value : String)
    (h : ls.setItem key value = .ok ls1) : ls1.getItem key = .ok (some value) := by
  unfold LocalStorage.setItem at h
  split_ifs at h with ha hq
  cases h
  simp [LocalStorage.getItem, ha, List.lookup]

theorem save_of_writeSucceeds (ls ls1 : LocalStorage) (sel : List SelectedProperty)
    (h : ls.setItem STORAGE_KEY (JSON.stringify (.arr (sel.map SelectedProperty.toJson))) = .ok ls1) :
    saveSelectedProperties sel ls = ls1 := by
  unfold saveSelectedProperties
  rw [h]

theorem truthy_stringify_arr (items : List Json) :
    truthy (some (JSON.stringify (.arr items))) = true := by
  unfold truthy JSON.stringify
  rw [stringifyChars]
  rfl

/-- Loading from a store that holds the serialization of a selection list
returns the list. -/
theorem load_of_stored (ls : LocalStorage) (sel : List SelectedProperty)
    (h : ls.getItem STORAGE_KEY =
      .ok (some (JSON.stringify (.arr (sel.map SelectedProperty.toJson))))) :
    loadSelectedProperties ls = .ok (sel.map SelectedProperty.toJson) := by
  unfold loadSelectedProperties loadTryBlock
  rw [h]
  simp only [truthy_stringify_arr, Bool.not_true, Bool.false_eq_true, if_false, Option.getD_some,
    parse_stringify_selection]

theorem stored_after_save (ls : LocalStorage) (sel : List SelectedProperty)
    (h : WriteSucceeds ls sel) :
    (saveSelectedProperties sel ls).getItem STORAGE_KEY =
      .ok (some (JSON.stringify (.arr (sel.map SelectedProperty.toJson)))) := by
  obtain ⟨ls1, h1⟩ := h
  rw [save_of_writeSucceeds ls ls1 sel h1]
  exact getItem_of_setItem ls ls1 _ _ h1

theorem selectClick_localStorage (allPropertyCards : List Card) (idx : Nat) (card : Card)
    (st : CartState) (hcard : allPropertyCards[idx]? = some card) :
    (selectClick allPropertyCards idx st).localStorage =
      saveSelectedProperties (selectClick allPropertyCards idx st).selectedProperties
        st.localStorage := by
  unfold selectClick
  rw [hcard]
  simp only
  split_ifs <;> rfl

/-- C3. After the click on the select button of a card and after the click on
a remove button, whenever the write to the store goes through, the text
stored under the key "selectedProperties" is the serialization of the
selection list as it is after the click, and `loadSelectedProperties` called
right afterwards returns that list. -/
theorem persistence_after_mutation (allPropertyCards : List Card) (st : CartState) :
    (∀ (idx : Nat) (card : Card), allPropertyCards[idx]? = some card →
      WriteSucceeds st.localStorage (selectClick allPropertyCards idx st).selectedProperties →
      (selectClick allPropertyCards idx st).localStorage.getItem "selectedProperties" =
        .ok (some (JSON.stringify (.arr
          ((selectClick allPropertyCards idx st).selectedProperties.map
            SelectedProperty.toJson)))) ∧
      loadSelectedProperties (selectClick allPropertyCards idx st).localStorage =
        .ok ((selectClick allPropertyCards idx st).selectedProperties.map
          SelectedProperty.toJson)) ∧
    (∀ dataIdx : String,
      WriteSucceeds st.localStorage (removeClick dataIdx st).selectedProperties →
      (removeClick dataIdx st).localStorage.getItem "selectedProperties" =
        .ok (some (JSON.stringify (.arr
          ((removeClick dataIdx st).selectedProperties.map SelectedProperty.toJson)))) ∧
      loadSelectedProperties (removeClick dataIdx st).localStorage =
        .ok ((removeClick dataIdx st).selectedProperties.map SelectedProperty.toJson)) := by
  constructor
  · intro idx card hcard hw
    have hs := stored_after_save _ _ hw
    rw [← selectClick_localStorage allPropertyCards idx card st hcard] at hs
    exact ⟨hs, load_of_stored _ _ hs⟩
  · intro dataIdx hw
    have hs := stored_after_save _ _ hw
    exact ⟨hs, load_of_stored _ _ hs⟩

set_option maxRecDepth 100000 in
/-- C3 on the sample page: a select click on the first card with a working store. -/
theorem persistence_after_mutation_witness :
    sampleCards[0]? = some card450 ∧
    WriteSucceeds emptyStorage (selectClick sampleCards 0 ⟨[], emptyStorage⟩).selectedProperties ∧
    loadSelectedProperties (selectClick sampleCards 0 ⟨[], emptyStorage⟩).localStorage =
      .ok [(getPropertyData sampleCards card450).toJson] :=
  ⟨rfl, ⟨_, rfl⟩,
    ((persistence_after_mutation sampleCards ⟨[], emptyStorage⟩).1 0 card450 rfl ⟨_, rfl⟩).2⟩

theorem save_of_not_writeSucceeds (ls : LocalStorage) (sel : List SelectedProperty)
    (h : ¬ WriteSucceeds ls sel) : saveSelectedProperties sel ls = ls := by
  unfold saveSelectedProperties
  cases hs : ls.setItem STORAGE_KEY (JSON.stringify (.arr (sel.map SelectedProperty.toJson))) with
  | ok ls1 => exact absurd ⟨ls1, hs⟩ h
  | error e => rfl

/-- C4, as the code has it. For every list of selected-property records, the
empty list included, saving it and then loading from the resulting store
returns the same records, with the same field values, in the same order,
whenever the write of the save goes through; when `setItem` throws, the save
swallows the exception, the store keeps its previous content, and loading
returns what it returned before the save. -/
theorem storage_round_trip (sel : List SelectedProperty) (ls : LocalStorage) :
    (WriteSucceeds ls sel →
      loadSelectedProperties (saveSelectedProperties sel ls) =
        .ok (sel.map SelectedProperty.toJson)) ∧
    (¬ WriteSucceeds ls sel →
      saveSelectedProperties sel ls = ls ∧
      loadSelectedProperties (saveSelectedProperties sel ls) = loadSelectedProperties ls) :=
  ⟨fun hw => load_of_stored _ _ (stored_after_save ls sel hw),
    fun hw => ⟨save_of_not_writeSucceeds ls sel hw, by rw [save_of_not_writeSucceeds ls sel hw]⟩⟩

set_option maxRecDepth 100000 in
/-- C4 for the record of the first sample card, on a store that takes the
write and on one that holds an earlier list and refuses the write. -/
theorem storage_round_trip_witness :
    WriteSucceeds emptyStorage [getPropertyData sampleCards card450] ∧
    loadSelectedProperties
        (saveSelectedProperties [getPropertyData sampleCards card450] emptyStorage) =
      .ok [(getPropertyData sampleCards card450).toJson] ∧
    ¬ WriteSucceeds staleStorage [getPropertyData sampleCards card450] ∧
    saveSelectedProperties [getPropertyData sampleCards card450] staleStorage = staleStorage ∧
    loadSelectedProperties
        (saveSelectedProperties [getPropertyData sampleCards card450] staleStorage) =
      .ok [(getPropertyData sampleCards card900).toJson] :=
  have hno : ¬ WriteSucceeds staleStorage [getPropertyData sampleCards card450] := by
    rintro ⟨ls1, h⟩
    have e : staleStorage.setItem STORAGE_KEY (JSON.stringify
        (.arr ([getPropertyData sampleCards card450].map SelectedProperty.toJson))) =
        .error .quotaExceededError := rfl
    rw [e] at h
    cases h
  ⟨⟨_, rfl⟩,
    (storage_round_trip [getPropertyData sampleCards card450] emptyStorage).1 ⟨_, rfl⟩,
    hno,
    ((storage_round_trip [getPropertyData sampleCards card450] staleStorage).2 hno).1,
    (((storage_round_trip [getPropertyData sampleCards card450] staleStorage).2 hno).2).trans rfl⟩

set_option maxRecDepth 100000 in
/-- C4 as stated fails on a store that refuses the write: the save swallows the
exception, the store stays empty, and loading returns the empty list instead
of the saved one. -/
theorem storage_round_trip_counterexample :
    loadSelectedProperties
        (saveSelectedProperties [getPropertyData sampleCards card450] fullStorage) = .ok [] ∧
    [getPropertyData sampleCards card450].map SelectedProperty.toJson ≠ [] :=
  ⟨rfl, List.cons_ne_nil _ _⟩

/-- C5. `loadSelectedProperties` returns a list for every store and never
raises: the empty list when the key is absent, when the stored text is
empty, when the text is not parseable, when it parses to a value that is not
an array (an object, a number, `null`), and when reading the store throws. -/
theorem load_never_fails (ls : LocalStorage) :
    (∃ list, loadSelectedProperties ls = .ok list) ∧
    (ls.getItem "selectedProperties" = .ok none → loadSelectedProperties ls = .ok []) ∧
    (ls.getItem "selectedProperties" = .ok (some "") → loadSelectedProperties ls = .ok []) ∧
    (∀ text e, ls.getItem "selectedProperties" = .ok (some text) → JSON.parse text = .error e →
      loadSelectedProperties ls = .ok []) ∧
    (∀ text v, ls.getItem "selectedProperties" = .ok (some text) → JSON.parse text = .ok v →
      (∀ items, v ≠ .arr items) → loadSelectedProperties ls = .ok []) ∧
    (∀ e, ls.getItem "selectedProperties" = .error e → loadSelectedProperties ls = .ok []) ∧
    JSON.parse "\x7b\"img\":\"a.jpg\"\x7d" = .ok (.obj [("img", .str "a.jpg")]) ∧
    loadSelectedProperties { ls with items := [("selectedProperties", "\x7b\"img\":\"a.jpg\"\x7d")],
                                     accessible := true } = .ok [] ∧
    JSON.parse "42" = .ok (.num 42 0) ∧
    loadSelectedProperties { ls with items := [("selectedProperties", "42")],
                                     accessible := true } = .ok [] ∧
    JSON.parse "null" = .ok .null ∧
    loadSelectedProperties { ls with items := [("selectedProperties", "null")],
                                     accessible := true } = .ok [] ∧
    JSON.parse "[\x7b\"img\":" = .error .syntaxError ∧
    loadSelectedProperties { ls with items := [("selectedProperties", "[\x7b\"img\":")],
                                     accessible := true } = .ok [] := by
  have hkey : STORAGE_KEY = "selectedProperties" := rfl
  refine ⟨?_, ?_, ?_, ?_, ?_, ?_, by rfl, by rfl, by rfl, by rfl, by rfl, by rfl, by rfl, by rfl⟩
  · unfold loadSelectedProperties
    cases loadTryBlock ls with
    | error e => exact ⟨_, rfl⟩
    | ok r =>
      cases r with
      | none => exact ⟨_, rfl⟩
      | some l => exact ⟨_, rfl⟩
  · intro h
    simp only [loadSelectedProperties, loadTryBlock, hkey, h]
    rfl
  · intro h
    simp only [loadSelectedProperties, loadTryBlock, hkey, h]
    rfl
  · intro text e h hp
    simp only [loadSelectedProperties, loadTryBlock, hkey, h, Option.getD_some, hp]
    split_ifs <;> rfl
  · intro text v h hp hv
    simp only [loadSelectedProperties, loadTryBlock, hkey, h, Option.getD_some, hp]
    split_ifs
    · rfl
    · cases v with
      | arr items => exact absurd rfl (hv items)
      | null => rfl
      | bool b => rfl
      | num m e => rfl
      | str s => rfl
      | obj ms => rfl
  · intro e h
    simp only [loadSelectedProperties, loadTryBlock, hkey, h]

/-! ## Overlays and focus: properties -/

/-- C10 fails on the code. After the quick-view modal is opened from the
quick-view button `i`, the click on its close button and the click on its
backdrop close the modal and leave the focus on the close button of the
modal, not on the quick-view button; the Escape key, on the same modal, does
return the focus to the quick-view button. -/
theorem quick_view_close_keeps_focus (i : Nat) (st : UiState) :
    (closeModalBtnClick fullPage (quickViewBtnClick fullPage i st)).modalActive = false ∧
    (closeModalBtnClick fullPage (quickViewBtnClick fullPage i st)).activeElement =
      Element.closeModalBtn ∧
    (windowClick fullPage Element.modal (quickViewBtnClick fullPage i st)).modalActive = false ∧
    (windowClick fullPage Element.modal (quickViewBtnClick fullPage i st)).activeElement =
      Element.closeModalBtn ∧
    Element.closeModalBtn ≠ Element.quickViewBtn i ∧
    (escapeKeydown fullPage
        (quickViewBtnClick fullPage i { st with agentModalActive := false })).activeElement =
      Element.quickViewBtn i := by
  refine ⟨rfl, rfl, rfl, rfl, ?_, rfl⟩
  intro h
  cases h

end Estate
